import Mathlib

/-!
# Verification of the kubernetes/client-go cores

Shallow embedding of the two engineering cores of the repository:

* the strategic merge patch (SMP) engine
  (`src/unnamed/part_007`, Go package `strategicpatch`), and
* the priority work queue
  (`src/util/workqueue/priority_queue.go`, Go package `workqueue`).

Go's `map[string]interface{}` JSON representation is modelled by the
inductive type `JSON` below, with objects as association lists kept in
strictly sorted key order (a canonical representative of the unordered Go
map).  Go's `reflect`-based dynamic dispatch becomes pattern matching on
the `JSON` constructors.  Mutually recursive Go functions are embedded as
fuel-indexed Lean functions: running out of fuel yields the distinguished
`PatchError.fuelExhausted`, which no theorem below treats as a result of
the algorithm.  JSON numbers are modelled as integers: the engine never
performs arithmetic on them, only equality tests and decimal formatting,
on which the model agrees with Go's `float64` for integral values.
-/

set_option linter.unusedVariables false

/-- JSON values as produced by `json.Unmarshal` into `interface{}`:
`nil`, `bool`, `float64` (restricted to integral values), `string`,
`[]interface{}` and `map[string]interface{}`. -/
inductive JSON where
  | null : JSON
  | bool (b : Bool) : JSON
  | num (n : Int) : JSON
  | str (s : String) : JSON
  | arr (elems : List JSON) : JSON
  | obj (fields : List (String × JSON)) : JSON
  deriving Repr

/-- A JSON object body: the model of Go's `map[string]interface{}`.
The list is canonical (keys strictly increasing) whenever it is produced
by the operations below. -/
abbrev Smap := List (String × JSON)

mutual

/-- Structural equality of JSON values, the model of `reflect.DeepEqual`
on unmarshalled JSON (Go map equality is extensional; canonical field
lists make structural equality coincide with it). -/
def JSON.beq : JSON → JSON → Bool
  | .null, .null => true
  | .bool a, .bool b => a == b
  | .num a, .num b => a == b
  | .str a, .str b => a == b
  | .arr xs, .arr ys => JSON.beqList xs ys
  | .obj xs, .obj ys => JSON.beqFields xs ys
  | _, _ => false

/-- Element-wise equality of JSON arrays. -/
def JSON.beqList : List JSON → List JSON → Bool
  | [], [] => true
  | x :: xs, y :: ys => JSON.beq x y && JSON.beqList xs ys
  | _, _ => false

/-- Field-wise equality of JSON object bodies. -/
def JSON.beqFields : List (String × JSON) → List (String × JSON) → Bool
  | [], [] => true
  | (k, v) :: xs, (l, w) :: ys => k == l && JSON.beq v w && JSON.beqFields xs ys
  | _, _ => false

end

mutual

theorem JSON.beq_iff : ∀ a b : JSON, JSON.beq a b = true ↔ a = b
  | .null, .null => by simp [JSON.beq]
  | .bool a, .bool b => by simp [JSON.beq]
  | .num a, .num b => by simp [JSON.beq]
  | .str a, .str b => by simp [JSON.beq]
  | .arr xs, .arr ys => by
      simp only [JSON.beq, JSON.beqList_iff xs ys, JSON.arr.injEq]
  | .obj xs, .obj ys => by
      simp only [JSON.beq, JSON.beqFields_iff xs ys, JSON.obj.injEq]
  | .null, .bool _ | .null, .num _ | .null, .str _ | .null, .arr _ | .null, .obj _
  | .bool _, .null | .bool _, .num _ | .bool _, .str _ | .bool _, .arr _ | .bool _, .obj _
  | .num _, .null | .num _, .bool _ | .num _, .str _ | .num _, .arr _ | .num _, .obj _
  | .str _, .null | .str _, .bool _ | .str _, .num _ | .str _, .arr _ | .str _, .obj _
  | .arr _, .null | .arr _, .bool _ | .arr _, .num _ | .arr _, .str _ | .arr _, .obj _
  | .obj _, .null | .obj _, .bool _ | .obj _, .num _ | .obj _, .str _ | .obj _, .arr _ => by
      simp [JSON.beq]

theorem JSON.beqList_iff : ∀ xs ys : List JSON, JSON.beqList xs ys = true ↔ xs = ys
  | [], [] => by simp [JSON.beqList]
  | x :: xs, y :: ys => by
      simp [JSON.beqList, JSON.beq_iff x y, JSON.beqList_iff xs ys]
  | [], _ :: _ => by simp [JSON.beqList]
  | _ :: _, [] => by simp [JSON.beqList]

theorem JSON.beqFields_iff :
    ∀ xs ys : List (String × JSON), JSON.beqFields xs ys = true ↔ xs = ys
  | [], [] => by simp [JSON.beqFields]
  | (k, v) :: xs, (l, w) :: ys => by
      simp [JSON.beqFields, JSON.beq_iff v w, JSON.beqFields_iff xs ys, and_assoc]
  | [], _ :: _ => by simp [JSON.beqFields]
  | _ :: _, [] => by simp [JSON.beqFields]

end

instance : DecidableEq JSON := fun a b =>
  decidable_of_iff (JSON.beq a b = true) (JSON.beq_iff a b)

/-! ## Association-map model of `map[string]interface{}` -/

/-- Key lookup, the model of `original[k]`. -/
def lookupKey : Smap → String → Option JSON
  | [], _ => none
  | (k, v) :: rest, key => if k = key then some v else lookupKey rest key

/-- Key update (`m[k] = v`), keeping the canonical strictly sorted order. -/
def insertKey : Smap → String → JSON → Smap
  | [], key, v => [(key, v)]
  | (k, w) :: rest, key, v =>
    if key < k then (key, v) :: (k, w) :: rest
    else if key = k then (key, v) :: rest
    else (k, w) :: insertKey rest key v

/-- Key removal (`delete(m, k)`); a no-op when the key is absent. -/
def removeKey (m : Smap) (key : String) : Smap :=
  m.filter (fun kv => kv.1 ≠ key)

/-- The canonical-representation invariant: keys strictly increasing. -/
def Canonical (m : Smap) : Prop :=
  m.Pairwise (fun a b => a.1 < b.1)

instance : DecidablePred Canonical := fun m =>
  inferInstanceAs (Decidable (m.Pairwise _))

/-- The object body of a JSON value assumed to be an object (the model of
an unchecked Go type assertion `v.(map[string]interface{})` at call sites
where the assertion cannot fail). -/
def objFieldsD : JSON → Smap
  | .obj f => f
  | _ => []

/-! ## Directive constants (`$patch` and friends) -/

def directiveMarker : String := "$patch"
def deleteDirective : String := "delete"
def replaceDirective : String := "replace"
def mergeDirective : String := "merge"

/-- The parallel-deletion-list key stem `$deleteFromPrimitiveList`
(named `deleteFromPrimitiveListDirectivePre` + `fix` in the source). -/
def deleteFromPrimitiveListDirective : String := "$deleteFromPrimitiveList"

/-! ## Errors

One constructor per distinct error site of the Go engine.  `fuelExhausted`
is the out-of-fuel marker of the embedding (not a Go error); `castPanic`
models a Go runtime panic on a type assertion that the surrounding code
has already made impossible. -/

inductive PatchError where
  | badJSONDoc : PatchError
  | noListOfLists : PatchError
  | badPatchFormatForPrimitiveList : PatchError
  | badArgType : PatchError
  | badPatchType : PatchError
  | invalidDirectiveValue : PatchError
  | noMergeKey : PatchError
  | noMergeKeyForType : PatchError
  | mergeInPatchList : PatchError
  | deleteNoMergeKey : PatchError
  | lookupFailed : PatchError
  | elementTypesDiffer : PatchError
  | noElements : PatchError
  | invalidElementType : PatchError
  | cannotFindMergeKeyInList : PatchError
  | valueNotMap : PatchError
  | preconditionFailed : PatchError
  | conflict : PatchError
  | castPanic : PatchError
  | fuelExhausted : PatchError
  deriving DecidableEq, Repr

/-! ## Schema descriptors

Modelled from the spec: the Patch Metadata Provider
(`forkedjson.LookupPatchMetadata`, not part of the shown sources) is,
per spec section 4.4, a pure lookup
`Lookup(typeDescriptor, fieldName) → (elementType, patchStrategy, mergeKey, error)`
driven by the struct tags of a structural type descriptor.  A schema is a
tree: a scalar kind, a struct with named fields (each carrying its type,
its `patchStrategy` tag and its `patchMergeKey` tag), or a slice. -/

inductive SType where
  | scalar : SType
  | structT (fields : List (String × SType × String × String)) : SType
  | sliceT (elem : SType) : SType

/-- Modelled from the spec: field-metadata lookup (spec section 4.4).
Returns `(fieldType, patchStrategy, mergeKey)`; a missing field or a
non-struct descriptor is a lookup error. -/
def LookupPatchMetadata : SType → String → Except PatchError (SType × String × String)
  | .structT fields, key =>
    match fields.find? (fun f => f.1 == key) with
    | some (_, t, strat, mk) => .ok (t, strat, mk)
    | none => .error .lookupFailed
  | _, _ => .error .lookupFailed

/-- `reflect.Type.Elem()` on a slice type (only invoked on slice-typed
fields in the engine). -/
def SType.elemT : SType → SType
  | .sliceT e => e
  | _ => .scalar

/-- `getTagStructType`: the data struct must be a struct (pointer
indirection elided by the model). -/
def getTagStructType : SType → Except PatchError SType
  | .structT f => .ok (.structT f)
  | _ => .error .badArgType

/-! ## Scalar formatting and sorting -/

/-- `fmt.Sprintf("%v", x)` on an unmarshalled scalar (`<nil>`, `true`,
`false`, decimal numbers, raw strings).  Arrays and objects are never
formatted by the engine; their branches are arbitrary. -/
def scalarString : JSON → String
  | .null => "<nil>"
  | .bool b => if b then "true" else "false"
  | .num n => toString n
  | .str s => s
  | .arr _ => "[]"
  | .obj _ => "map[]"

/-- The JSON kind code of `reflect.TypeOf(v)` (`none` for Go's nil
interface). -/
def tyOfGo : JSON → Option Nat
  | .null => none
  | .bool _ => some 1
  | .num _ => some 2
  | .str _ => some 3
  | .arr _ => some 4
  | .obj _ => some 5

/-- Kind equality test `reflect.TypeOf(a) == reflect.TypeOf(b)`. -/
def sameKind (a b : JSON) : Bool :=
  tyOfGo a == tyOfGo b

/-- Insert into a list sorted by a string key, after existing equal keys
(one deterministic realization of Go's `sort.Sort` outcome). -/
def insertSortedBy (key : JSON → String) (x : JSON) : List JSON → List JSON
  | [] => [x]
  | y :: ys => if key y ≤ key x then y :: insertSortedBy key x ys else x :: y :: ys

/-- Sort a list of JSON values by a string key (insertion sort; the
source sorts with `sort.Sort` and a `StringsAreSorted`-based `Less`). -/
def sortByKeyString (key : JSON → String) (s : List JSON) : List JSON :=
  s.foldl (fun acc x => insertSortedBy key x acc) []

/-- `sortScalars`: sort scalars by their `%v` representation. -/
def sortScalars (s : List JSON) : List JSON :=
  sortByKeyString scalarString s

/-- `sortMapsBasedOnField`: sort object elements by the `%v` form of the
value at `fieldName` (a missing field formats as `<nil>`). -/
def sortMapsBasedOnField (m : List JSON) (fieldName : String) : List JSON :=
  sortByKeyString (fun j => scalarString ((lookupKey (objFieldsD j) fieldName).getD .null)) m

/-- One step of `uniqifyScalars`' index loops over the working list `s`
(replace a duplicate at `j` with the last element, truncate, and retry). -/
def uniqifyGo : Nat → List JSON → Nat → Nat → List JSON
  | 0, s, _, _ => s
  | fuel+1, s, i, j =>
    let last := s.length - 1
    if i < last then
      if j ≤ last then
        if JSON.beq (s.getD i .null) (s.getD j .null) then
          uniqifyGo fuel ((s.set j (s.getD last .null)).take last) i j
        else uniqifyGo fuel s i (j+1)
      else uniqifyGo fuel s (i+1) (i+2)
    else s

/-- `uniqifyScalars`: the source's in-place swap-with-last deduplication
(which does not preserve order).  The internal step count is bounded by
`(n+2)^2`. -/
def uniqifyScalars (s : List JSON) : List JSON :=
  uniqifyGo ((s.length + 2) * (s.length + 2)) s 0 1

/-- `uniqifyAndSortScalars`. -/
def uniqifyAndSortScalars (s : List JSON) : List JSON :=
  sortScalars (uniqifyScalars s)

/-! ## Slice element types -/

/-- The scan of `sliceElementType`: `prev` is the model of the `prevType`
variable (`none` = Go's nil `reflect.Type`).  A leading nil element makes
Go dereference a nil `reflect.Type`, modelled as `castPanic`. -/
def sliceElemTypeGo : Option Nat → List JSON → Except PatchError (Option Nat)
  | prev, [] => .ok prev
  | none, v :: rest =>
    match tyOfGo v with
    | none => .error .castPanic
    | some c =>
      if c = 4 then .error .noListOfLists
      else sliceElemTypeGo (some c) rest
  | some p, v :: rest =>
    if some p ≠ tyOfGo v then .error .elementTypesDiffer
    else sliceElemTypeGo (tyOfGo v) rest

/-- `sliceElementType(slices...)`: the common element-kind code of the
given slices, or an error. -/
def sliceElementType (slices : List (List JSON)) : Except PatchError Nat := do
  match ← sliceElemTypeGo none slices.flatten with
  | none => .error .noElements
  | some t => .ok t

/-! ## Primitive-list helpers -/

/-- `strings.SplitN(k, "/", 2)`: the part after the first slash, or
`none` when there is no slash. -/
def splitAfterSlash (s : String) : Option String :=
  match s.splitOn "/" with
  | [] => none
  | [_] => none
  | _ :: restParts => some (String.intercalate "/" restParts)

/-- The two-pointer walk of `diffListsOfScalars` over the two sorted
scalar lists, producing `(addList, deletionList)`. -/
def diffScalarsWalk (iCA iD : Bool) : List JSON → List JSON → List JSON × List JSON
  | [], [] => ([], [])
  | [], m :: ms =>
    let (a, d) := diffScalarsWalk iCA iD [] ms
    (if !iCA then m :: a else a, d)
  | o :: os, [] =>
    let (a, d) := diffScalarsWalk iCA iD os []
    (a, if !iD then o :: d else d)
  | o :: os, m :: ms =>
    let oS := scalarString o
    let mS := scalarString m
    if oS = mS then diffScalarsWalk iCA iD os ms
    else if mS < oS then
      let (a, d) := diffScalarsWalk iCA iD (o :: os) ms
      (if !iCA then m :: a else a, d)
    else
      let (a, d) := diffScalarsWalk iCA iD os (m :: ms)
      (a, if !iD then o :: d else d)
  termination_by o m => o.length + m.length

/-- `diffListsOfScalars`: sort both sides by their string form and walk
them in parallel; `<` on the original side is a deletion, `>` an
addition. -/
def diffListsOfScalars (original modified : List JSON) (iCA iD : Bool) :
    Except PatchError (List JSON × List JSON) :=
  .ok (diffScalarsWalk iCA iD (sortScalars original) (sortScalars modified))

/-- `deleteFromSlice`'s two-pointer walk over the uniqified sorted
current list and deletion list. -/
def deleteFromSliceWalk : List JSON → List JSON → List JSON
  | [], _ => []
  | c :: cs, [] => c :: cs
  | c :: cs, d :: ds =>
    let cS := scalarString c
    let dS := scalarString d
    if cS = dS then deleteFromSliceWalk cs (d :: ds)
    else if dS < cS then deleteFromSliceWalk (c :: cs) ds
    else c :: deleteFromSliceWalk cs (d :: ds)
  termination_by c d => c.length + d.length

/-- `deleteFromSlice`: remove the items of the parallel deletion list
from a list of scalars. -/
def deleteFromSlice (current toDelete : List JSON) : List JSON :=
  deleteFromSliceWalk (uniqifyAndSortScalars current) (uniqifyAndSortScalars toDelete)

/-- `findMapInSliceBasedOnKeyValue`: the index of the first object
element whose value at `key` equals `value` (an error on a non-object
element). -/
def findMapInSliceBasedOnKeyValue : List JSON → String → JSON → Except PatchError (Option Nat)
  | [], _, _ => .ok none
  | v :: rest, key, value =>
    match v with
    | .obj typedV =>
      match lookupKey typedV key with
      | some valueToMatch =>
        if valueToMatch = value then .ok (some 0)
        else do
          match ← findMapInSliceBasedOnKeyValue rest key value with
          | some i => .ok (some (i + 1))
          | none => .ok none
      | none => do
        match ← findMapInSliceBasedOnKeyValue rest key value with
        | some i => .ok (some (i + 1))
        | none => .ok none
    | _ => .error .valueNotMap

/-- The `for {}` loop of `mergeSlice`'s `$patch: delete` handling:
repeatedly delete the element matching the merge-key value until no
match remains. -/
def deleteAllMatching : Nat → List JSON → String → JSON → Except PatchError (List JSON)
  | 0, _, _, _ => .error .fuelExhausted
  | fuel+1, original, mergeKey, mergeValue => do
    match ← findMapInSliceBasedOnKeyValue original mergeKey mergeValue with
    | none => .ok original
    | some idx => deleteAllMatching fuel (original.eraseIdx idx) mergeKey mergeValue

/-- The first scan of `mergeSlice` over the patch list: process
`$patch` directive elements (deleting matching originals, recording a
pending replace, rejecting `merge` and unknown directives) and collect
the directive-free elements.  Returns
`(updated original, patchWithoutSpecialElements, replace)`. -/
def mergeSliceDirScan (fuel : Nat) (mergeKey : String) :
    List JSON → List JSON → Bool → List JSON → Except PatchError (List JSON × List JSON × Bool)
  | original, acc, replace, [] => .ok (original, acc, replace)
  | original, acc, replace, v :: rest =>
    match v with
    | .obj typedV =>
      match lookupKey typedV directiveMarker with
      | some patchType =>
        if patchType = .str deleteDirective then
          match lookupKey typedV mergeKey with
          | some mergeValue => do
            let original ← deleteAllMatching fuel original mergeKey mergeValue
            mergeSliceDirScan fuel mergeKey original acc replace rest
          | none => .error .deleteNoMergeKey
        else if patchType = .str replaceDirective then
          mergeSliceDirScan fuel mergeKey original acc true rest
        else if patchType = .str mergeDirective then .error .mergeInPatchList
        else .error .badPatchType
      | none => mergeSliceDirScan fuel mergeKey original (acc ++ [v]) replace rest
    | _ => .error .castPanic

/-- `sliceOfMapsToMapOfMaps`: index a merging list by the `%s` form of
each element's merge-key value. -/
def sliceOfMapsToMapOfMaps : List JSON → String → Except PatchError Smap
  | [], _ => .ok []
  | value :: rest, mergeKey =>
    match value with
    | .obj typedValue =>
      match lookupKey typedValue mergeKey with
      | some mergeValue => do
        let m ← sliceOfMapsToMapOfMaps rest mergeKey
        -- Go fills the map in iteration order, so later duplicates win;
        -- building from the tail and inserting an earlier element only
        -- when its key is absent from the rest reproduces that.
        match lookupKey m (fmtS mergeValue) with
        | some _ => .ok m
        | none => .ok (insertKey m (fmtS mergeValue) value)
      | none => .error .cannotFindMergeKeyInList
    | _ => .error .invalidElementType
where
  /-- `fmt.Sprintf("%s", v)` (verbatim for strings; the `%!s` noise of
  other kinds only needs to stay injective per kind here). -/
  fmtS : JSON → String
    | .str s => s
    | .num n => "%!s(float64=" ++ toString n ++ ")"
    | .bool b => "%!s(bool=" ++ (if b then "true" else "false") ++ ")"
    | .null => "%!s(<nil>)"
    | .arr _ => "[%!s(arr)]"
    | .obj _ => "map[%!s(obj)]"

/-! ## Sorting merge lists (`sortMergeListsByName*`) -/

mutual

/-- `sortMergeListsByNameMap`: recursively sort every merge list inside
a map by its merge key. -/
def sortMergeListsByNameMap (fuel : Nat) (s : Smap) (t : SType) : Except PatchError Smap :=
  match fuel with
  | 0 => .error .fuelExhausted
  | fuel+1 => sortMergeListsByNameMapGo fuel t [] s

/-- The field loop of `sortMergeListsByNameMap`. -/
def sortMergeListsByNameMapGo (fuel : Nat) (t : SType) (newS : Smap) :
    List (String × JSON) → Except PatchError Smap
  | [] => .ok newS
  | (k, v) :: rest =>
    match fuel with
    | 0 => .error .fuelExhausted
    | fuel+1 =>
      if k.startsWith deleteFromPrimitiveListDirective then
        match v with
        | .arr typedV =>
          sortMergeListsByNameMapGo fuel t (insertKey newS k (.arr (uniqifyAndSortScalars typedV))) rest
        | _ => .error .badPatchFormatForPrimitiveList
      else if k ≠ directiveMarker then do
        let (fieldType, fieldPatchStrategy, fieldPatchMergeKey) ← LookupPatchMetadata t k
        match v with
        | .obj typedV => do
          let v2 ← sortMergeListsByNameMap fuel typedV fieldType
          sortMergeListsByNameMapGo fuel t (insertKey newS k (.obj v2)) rest
        | .arr typedV =>
          if fieldPatchStrategy = mergeDirective then do
            let v2 ← sortMergeListsByNameArray fuel typedV fieldType.elemT fieldPatchMergeKey true
            sortMergeListsByNameMapGo fuel t (insertKey newS k (.arr v2)) rest
          else sortMergeListsByNameMapGo fuel t (insertKey newS k v) rest
        | _ => sortMergeListsByNameMapGo fuel t (insertKey newS k v) rest
      else sortMergeListsByNameMapGo fuel t (insertKey newS k v) rest

/-- `sortMergeListsByNameArray`: sort one merge list by its merge key
(scalar elements by their string form), recursing into elements when
`recurse` is set. -/
def sortMergeListsByNameArray (fuel : Nat) (s : List JSON) (elemType : SType)
    (mergeKey : String) (recurse : Bool) : Except PatchError (List JSON) :=
  match fuel with
  | 0 => .error .fuelExhausted
  | fuel+1 =>
    if s.isEmpty then .ok s
    else do
      let t ← sliceElementType [s]
      if t ≠ 5 then .ok (uniqifyAndSortScalars s)
      else do
        let newS ← sortMergeListsByNameArrayGo fuel elemType recurse [] s
        .ok (sortMapsBasedOnField newS mergeKey)

/-- The element loop of `sortMergeListsByNameArray`. -/
def sortMergeListsByNameArrayGo (fuel : Nat) (elemType : SType) (recurse : Bool)
    (newS : List JSON) : List JSON → Except PatchError (List JSON)
  | [] => .ok newS
  | elem :: rest =>
    match fuel with
    | 0 => .error .fuelExhausted
    | fuel+1 =>
      if recurse then do
        let newElem ← sortMergeListsByNameMap fuel (objFieldsD elem) elemType
        sortMergeListsByNameArrayGo fuel elemType recurse (newS ++ [.obj newElem]) rest
      else sortMergeListsByNameArrayGo fuel elemType recurse (newS ++ [elem]) rest

end

/-! ## Two-way diff (`diffMaps` and friends) -/

/-- The trailing deletion loop of `diffListsOfMaps`: emit a
`{mergeKey: v, $patch: delete}` element for every remaining original
element (each must be an object carrying the merge key). -/
def diffListsDelTail (mergeKey : String) (patch : List JSON) :
    List JSON → Except PatchError (List JSON)
  | [] => .ok patch
  | o :: os =>
    match o with
    | .obj originalMap =>
      match lookupKey originalMap mergeKey with
      | some originalValue =>
        diffListsDelTail mergeKey
          (patch ++ [.obj (insertKey (insertKey [] mergeKey originalValue)
            directiveMarker (.str deleteDirective))]) os
      | none => .error .noMergeKey
    | _ => .error .badArgType

mutual

/-- `diffMaps`: a strategic merge patch that yields `modified` when
applied to `original` (pointer indirection on `t` elided by the model). -/
def diffMaps (fuel : Nat) (original modified : Smap) (t : SType)
    (ignoreChangesAndAdditions ignoreDeletions : Bool) : Except PatchError Smap :=
  match fuel with
  | 0 => .error .fuelExhausted
  | fuel+1 => do
    let patch ← diffMapsFields fuel original t ignoreChangesAndAdditions ignoreDeletions [] modified
    if !ignoreDeletions then
      .ok (original.foldl
        (fun acc kv => if (lookupKey modified kv.1).isNone then insertKey acc kv.1 .null else acc)
        patch)
    else .ok patch

/-- The field loop of `diffMaps` over the fields of `modified`. -/
def diffMapsFields (fuel : Nat) (original : Smap) (t : SType) (iCA iD : Bool)
    (patch : Smap) : List (String × JSON) → Except PatchError Smap
  | [] => .ok patch
  | (key, modifiedValue) :: rest =>
    match fuel with
    | 0 => .error .fuelExhausted
    | fuel+1 =>
      match lookupKey original key with
      | none =>
        -- Key was added, so add to patch.
        diffMapsFields fuel original t iCA iD
          (if !iCA then insertKey patch key modifiedValue else patch) rest
      | some originalValue =>
        if key = directiveMarker then
          match originalValue, modifiedValue with
          | .str originalString, .str modifiedString =>
            diffMapsFields fuel original t iCA iD
              (if modifiedString ≠ originalString then insertKey patch key modifiedValue else patch)
              rest
          | _, _ => .error .invalidDirectiveValue
        else if !(sameKind originalValue modifiedValue) then
          -- Types have changed, so add to patch.
          diffMapsFields fuel original t iCA iD
            (if !iCA then insertKey patch key modifiedValue else patch) rest
        else
          match originalValue, modifiedValue with
          | .obj originalValueTyped, .obj modifiedValueTyped =>
            (match LookupPatchMetadata t key with
            | .error e =>
              if originalValue = modifiedValue then
                diffMapsFields fuel original t iCA iD patch rest
              else .error e
            | .ok (fieldType, fieldPatchStrategy, _) =>
              if fieldPatchStrategy = replaceDirective then
                diffMapsFields fuel original t iCA iD
                  (if !iCA then insertKey patch key modifiedValue else patch) rest
              else do
                let patchValue ← diffMaps fuel originalValueTyped modifiedValueTyped fieldType iCA iD
                diffMapsFields fuel original t iCA iD
                  (if patchValue.length > 0 then insertKey patch key (.obj patchValue) else patch)
                  rest)
          | .arr originalValueTyped, .arr modifiedValueTyped =>
            (match LookupPatchMetadata t key with
            | .error e =>
              if originalValue = modifiedValue then
                diffMapsFields fuel original t iCA iD patch rest
              else .error e
            | .ok (fieldType, fieldPatchStrategy, fieldPatchMergeKey) =>
              if fieldPatchStrategy = mergeDirective then do
                let (addList, deletionList) ←
                  diffLists fuel originalValueTyped modifiedValueTyped fieldType.elemT
                    fieldPatchMergeKey iCA iD
                let patch := if addList.length > 0 then insertKey patch key (.arr addList) else patch
                let patch :=
                  if deletionList.length > 0 then
                    insertKey patch (deleteFromPrimitiveListDirective ++ "/" ++ key)
                      (.arr deletionList)
                  else patch
                diffMapsFields fuel original t iCA iD patch rest
              else
                -- Non-merge lists fall through to the deep-equality check.
                diffMapsFields fuel original t iCA iD
                  (if !iCA && originalValue ≠ modifiedValue then insertKey patch key modifiedValue
                   else patch) rest)
          | _, _ =>
            -- Values of identical scalar kind: emit when not deep-equal.
            diffMapsFields fuel original t iCA iD
              (if !iCA && originalValue ≠ modifiedValue then insertKey patch key modifiedValue
               else patch) rest

/-- `diffLists`: dispatch on the element kind, producing
`(addList, deletionList)`. -/
def diffLists (fuel : Nat) (original modified : List JSON) (t : SType)
    (mergeKey : String) (iCA iD : Bool) : Except PatchError (List JSON × List JSON) :=
  match fuel with
  | 0 => .error .fuelExhausted
  | fuel+1 =>
    if original.isEmpty then
      if modified.isEmpty || iCA then .ok ([], [])
      else .ok (modified, [])
    else do
      let elementType ← sliceElementType [original, modified]
      if elementType = 5 then do
        let patchList ← diffListsOfMaps fuel original modified t mergeKey iCA iD
        .ok (patchList, [])
      else if elementType = 4 then .error .noListOfLists
      else diffListsOfScalars original modified iCA iD

/-- `diffListsOfMaps`: sort both merge lists by the merge key and walk
them with `diffListsOfMapsOuter`/`Inner`. -/
def diffListsOfMaps (fuel : Nat) (original modified : List JSON) (t : SType)
    (mergeKey : String) (iCA iD : Bool) : Except PatchError (List JSON) :=
  match fuel with
  | 0 => .error .fuelExhausted
  | fuel+1 => do
    let originalSorted ← sortMergeListsByNameArray fuel original t mergeKey false
    let modifiedSorted ← sortMergeListsByNameArray fuel modified t mergeKey false
    diffListsOfMapsOuter fuel t mergeKey iCA iD [] originalSorted modifiedSorted

/-- The outer (`loopB`) loop of `diffListsOfMaps` over the sorted
modified list. -/
def diffListsOfMapsOuter (fuel : Nat) (t : SType) (mergeKey : String) (iCA iD : Bool)
    (patch : List JSON) : List JSON → List JSON → Except PatchError (List JSON)
  | originalSorted, [] =>
    -- The modified list is exhausted: delete any remaining originals.
    if !iD then diffListsDelTail mergeKey patch originalSorted else .ok patch
  | originalSorted, m :: ms =>
    match fuel with
    | 0 => .error .fuelExhausted
    | fuel+1 =>
      match m with
      | .obj modifiedMap =>
        match lookupKey modifiedMap mergeKey with
        | some modifiedValue =>
          diffListsOfMapsInner fuel t mergeKey iCA iD patch modifiedMap modifiedValue ms
            originalSorted
        | none => .error .noMergeKey
      | _ => .error .badArgType

/-- The inner loop of `diffListsOfMaps` over the sorted original list;
exhausting it breaks `loopB`, appending the unprocessed modified
elements. -/
def diffListsOfMapsInner (fuel : Nat) (t : SType) (mergeKey : String) (iCA iD : Bool)
    (patch : List JSON) (modifiedMap : Smap) (modifiedValue : JSON) (ms : List JSON) :
    List JSON → Except PatchError (List JSON)
  | [] => .ok (if !iCA then patch ++ (.obj modifiedMap :: ms) else patch)
  | o :: os =>
    match fuel with
    | 0 => .error .fuelExhausted
    | fuel+1 =>
      match o with
      | .obj originalMap =>
        match lookupKey originalMap mergeKey with
        | some originalValue =>
          let originalString := scalarString originalValue
          let modifiedString := scalarString modifiedValue
          if modifiedString ≤ originalString then
            if originalString = modifiedString then do
              -- Merge key values are equal, so recurse.
              let patchValue ← diffMaps fuel originalMap modifiedMap t iCA iD
              diffListsOfMapsOuter fuel t mergeKey iCA iD
                (if patchValue.length > 0 then
                  patch ++ [.obj (insertKey patchValue mergeKey modifiedValue)]
                 else patch) os ms
            else
              -- Item was added, so add to patch.
              diffListsOfMapsOuter fuel t mergeKey iCA iD
                (if !iCA then patch ++ [.obj modifiedMap] else patch) (o :: os) ms
          else
            -- Item was deleted, so add a delete directive.
            diffListsOfMapsInner fuel t mergeKey iCA iD
              (if !iD then
                patch ++ [.obj (insertKey (insertKey [] mergeKey originalValue)
                  directiveMarker (.str deleteDirective))]
               else patch) modifiedMap modifiedValue ms os
        | none => .error .noMergeKey
      | _ => .error .badArgType

end

/-! ## Applying patches (`mergeMap`, `mergeSlice`) -/

mutual

/-- `mergeMap`: merge the fields of `patch` into `original`, honouring a
top-level `$patch` directive first (a nil `original` is not
representable here: the model's maps are always concrete, matching Go's
`original == nil` rewrite to an empty map). -/
def mergeMap (fuel : Nat) (original patch : Smap) (t : SType)
    (mergeDeleteList ignoreUnmatchedNulls : Bool) : Except PatchError Smap :=
  match fuel with
  | 0 => .error .fuelExhausted
  | fuel+1 =>
    match lookupKey patch directiveMarker with
    | some v =>
      if v = .str replaceDirective then .ok (removeKey patch directiveMarker)
      else if v = .str deleteDirective then .ok []
      else .error .badPatchType
    | none =>
      mergeMapFields fuel original t mergeDeleteList ignoreUnmatchedNulls patch

/-- The field loop of `mergeMap` over the patch: route parallel deletion
list keys, then apply each key with `mergeMapKey`. -/
def mergeMapFields (fuel : Nat) (original : Smap) (t : SType) (mdl iun : Bool) :
    List (String × JSON) → Except PatchError Smap
  | [] => .ok original
  | (k, patchV) :: rest =>
    match fuel with
    | 0 => .error .fuelExhausted
    | fuel+1 =>
      if k.startsWith deleteFromPrimitiveListDirective then
        if !mdl then
          -- Keep the parallel list itself when not merging deletions.
          mergeMapFields fuel (insertKey original k patchV) t mdl iun rest
        else
          match splitAfterSlash k with
          | none => .error .badPatchFormatForPrimitiveList
          | some k2 => mergeMapKey fuel original t mdl iun k2 patchV true rest
      else mergeMapKey fuel original t mdl iun k patchV false rest

/-- The body of `mergeMap`'s loop for one (possibly rewritten) key. -/
def mergeMapKey (fuel : Nat) (original : Smap) (t : SType) (mdl iun : Bool)
    (k : String) (patchV : JSON) (isDeleteList : Bool)
    (rest : List (String × JSON)) : Except PatchError Smap :=
  match fuel with
  | 0 => .error .fuelExhausted
  | fuel+1 =>
    -- A null patch value deletes the key; unmatched nulls are dropped
    -- when `iun` and preserved otherwise.
    let original := if patchV = .null then removeKey original k else original
    if patchV = .null && iun then mergeMapFields fuel original t mdl iun rest
    else
      match lookupKey original k with
      | none =>
        -- Not in the original document: just take the patch value.
        mergeMapFields fuel (insertKey original k patchV) t mdl iun rest
      | some origV =>
        if sameKind origV patchV then do
          let (fieldType, fieldPatchStrategy, fieldPatchMergeKey) ← LookupPatchMetadata t k
          match origV, patchV with
          | .obj typedOriginal, .obj typedPatch =>
            if fieldPatchStrategy ≠ replaceDirective then do
              let merged ← mergeMap fuel typedOriginal typedPatch fieldType mdl iun
              mergeMapFields fuel (insertKey original k (.obj merged)) t mdl iun rest
            else mergeMapFields fuel (insertKey original k patchV) t mdl iun rest
          | .arr typedOriginal, .arr typedPatch =>
            if fieldPatchStrategy = mergeDirective then do
              let merged ← mergeSlice fuel typedOriginal typedPatch fieldType.elemT
                fieldPatchMergeKey mdl isDeleteList iun
              mergeMapFields fuel (insertKey original k (.arr merged)) t mdl iun rest
            else mergeMapFields fuel (insertKey original k patchV) t mdl iun rest
          | _, _ => mergeMapFields fuel (insertKey original k patchV) t mdl iun rest
        else mergeMapFields fuel (insertKey original k patchV) t mdl iun rest

/-- `mergeSlice`: merge two slices (scalars by union or parallel-list
deletion; objects by merge key, honouring `$patch` elements). -/
def mergeSlice (fuel : Nat) (original patch : List JSON) (elemType : SType)
    (mergeKey : String) (mergeDeleteList isDeleteList iun : Bool) :
    Except PatchError (List JSON) :=
  match fuel with
  | 0 => .error .fuelExhausted
  | fuel+1 =>
    if original.isEmpty && patch.isEmpty then .ok original
    else do
      let t ← sliceElementType [original, patch]
      if t ≠ 5 then
        if mergeDeleteList && isDeleteList then .ok (deleteFromSlice original patch)
        else .ok (uniqifyScalars (original ++ patch))
      else if mergeKey = "" then .error .noMergeKeyForType
      else do
        let (original2, patchWithoutSpecialElements, replace) ←
          mergeSliceDirScan fuel mergeKey original [] false patch
        if replace then .ok patchWithoutSpecialElements
        else
          mergeSliceMerged fuel original2 elemType mergeKey mergeDeleteList iun
            patchWithoutSpecialElements

/-- The final loop of `mergeSlice`: merge each remaining patch element
into the original element with the same merge-key value, or append it. -/
def mergeSliceMerged (fuel : Nat) (original : List JSON) (elemType : SType)
    (mergeKey : String) (mdl iun : Bool) : List JSON → Except PatchError (List JSON)
  | [] => .ok original
  | v :: rest =>
    match fuel with
    | 0 => .error .fuelExhausted
    | fuel+1 =>
      match v with
      | .obj typedV =>
        match lookupKey typedV mergeKey with
        | none => .error .noMergeKey
        | some mergeValue => do
          match ← findMapInSliceBasedOnKeyValue original mergeKey mergeValue with
          | some originalKey => do
            let originalMap := objFieldsD (original.getD originalKey .null)
            let mergedMaps ← mergeMap fuel originalMap typedV elemType mdl iun
            mergeSliceMerged fuel (original.set originalKey (.obj mergedMaps)) elemType
              mergeKey mdl iun rest
          | none => mergeSliceMerged fuel (original ++ [v]) elemType mergeKey mdl iun rest
      | _ => .error .castPanic

end

/-! ## Conflict detection -/

mutual

/-- `mergingMapFieldsHaveConflicts`: do `left` and `right` disagree?
Go returns `(bool, error)` with the error always paired with `true`;
the model returns `Except` accordingly. -/
def mergingMapFieldsHaveConflicts (fuel : Nat) (left right : JSON) (fieldType : SType)
    (fieldPatchStrategy fieldPatchMergeKey : String) : Except PatchError Bool :=
  match fuel with
  | 0 => .error .fuelExhausted
  | fuel+1 =>
    match left, right with
    | .obj leftType, .obj rightType =>
      let leftMarker := lookupKey leftType directiveMarker
      let rightMarker := lookupKey rightType directiveMarker
      if leftMarker.isSome ≠ rightMarker.isSome then .ok true
      else if (leftMarker.isSome || rightMarker.isSome) && leftMarker ≠ rightMarker then .ok true
      else if fieldPatchStrategy = replaceDirective then .ok false
      else mapsHaveConflictsGo fuel rightType fieldType leftType
    | .obj _, _ => .ok true
    | .arr leftList, .arr rightList =>
      slicesHaveConflicts fuel leftList rightList fieldType fieldPatchStrategy
        fieldPatchMergeKey
    | .arr _, _ => .ok true
    | _, _ => .ok (left ≠ right)

/-- The field loop of `mapsHaveConflicts` over the left map. -/
def mapsHaveConflictsGo (fuel : Nat) (typedRight : Smap) (structType : SType) :
    List (String × JSON) → Except PatchError Bool
  | [] => .ok false
  | (key, leftValue) :: rest =>
    match fuel with
    | 0 => .error .fuelExhausted
    | fuel+1 =>
      if key ≠ directiveMarker then
        match lookupKey typedRight key with
        | some rightValue => do
          let (fieldType, fieldPatchStrategy, fieldPatchMergeKey) ←
            LookupPatchMetadata structType key
          let hasConflicts ← mergingMapFieldsHaveConflicts fuel leftValue rightValue
            fieldType fieldPatchStrategy fieldPatchMergeKey
          if hasConflicts then .ok true
          else mapsHaveConflictsGo fuel typedRight structType rest
        | none => mapsHaveConflictsGo fuel typedRight structType rest
      else mapsHaveConflictsGo fuel typedRight structType rest

/-- `slicesHaveConflicts`: merge-strategy lists are compared via
merge-key-indexed maps; other lists positionally (scalars sorted
first). -/
def slicesHaveConflicts (fuel : Nat) (typedLeft typedRight : List JSON)
    (fieldType : SType) (fieldPatchStrategy fieldPatchMergeKey : String) :
    Except PatchError Bool :=
  match fuel with
  | 0 => .error .fuelExhausted
  | fuel+1 => do
    let elementType ← sliceElementType [typedLeft, typedRight]
    let valueType := fieldType.elemT
    if fieldPatchStrategy = mergeDirective then
      if elementType ≠ 5 then .ok false
      else do
        let leftMap ← sliceOfMapsToMapOfMaps typedLeft fieldPatchMergeKey
        let rightMap ← sliceOfMapsToMapOfMaps typedRight fieldPatchMergeKey
        mapsOfMapsHaveConflictsGo fuel rightMap valueType leftMap
    else
      if typedLeft.length ≠ typedRight.length then .ok true
      else
        let (sortedLeft, sortedRight) :=
          if elementType ≠ 5 then
            (uniqifyAndSortScalars typedLeft, uniqifyAndSortScalars typedRight)
          else (typedLeft, typedRight)
        slicesHaveConflictsIdx fuel valueType sortedRight sortedLeft

/-- The positional loop of `slicesHaveConflicts` (the right list is
walked in step with the left one). -/
def slicesHaveConflictsIdx (fuel : Nat) (valueType : SType) (right : List JSON) :
    List JSON → Except PatchError Bool
  | [] => .ok false
  | l :: ls =>
    match fuel with
    | 0 => .error .fuelExhausted
    | fuel+1 => do
      let hasConflicts ← mergingMapFieldsHaveConflicts fuel l (right.getD 0 .null)
        valueType "" ""
      if hasConflicts then .ok true
      else slicesHaveConflictsIdx fuel valueType (right.drop 1) ls

/-- The key loop of `mapsOfMapsHaveConflicts` over the left index map. -/
def mapsOfMapsHaveConflictsGo (fuel : Nat) (typedRight : Smap) (structType : SType) :
    List (String × JSON) → Except PatchError Bool
  | [] => .ok false
  | (key, leftValue) :: rest =>
    match fuel with
    | 0 => .error .fuelExhausted
    | fuel+1 =>
      match lookupKey typedRight key with
      | some rightValue => do
        let hasConflicts ← mergingMapFieldsHaveConflicts fuel leftValue rightValue
          structType "" ""
        if hasConflicts then .ok true
        else mapsOfMapsHaveConflictsGo fuel typedRight structType rest
      | none => mapsOfMapsHaveConflictsGo fuel typedRight structType rest

end

/-! ## Public entry points

The byte-level entry points unmarshal their JSON arguments and marshal
the result; in the model documents are already `Smap` values, so the
(un)marshalling steps are identities and the byte-level and map-level
entry points coincide. -/

/-- `CreateTwoWayMergeMapPatch` (and, through identity
(un)marshalling, `CreateTwoWayMergePatch`). -/
def CreateTwoWayMergeMapPatch (fuel : Nat) (original modified : Smap)
    (dataStruct : SType) (fns : List (Smap → Bool)) : Except PatchError Smap := do
  let t ← getTagStructType dataStruct
  let patchMap ← diffMaps fuel original modified t false false
  if fns.all (fun fn => fn patchMap) then .ok patchMap
  else .error .preconditionFailed

/-- `StrategicMergeMapPatch` (and, through identity (un)marshalling,
`StrategicMergePatch`). -/
def StrategicMergeMapPatch (fuel : Nat) (original patch : Smap)
    (dataStruct : SType) : Except PatchError Smap := do
  let t ← getTagStructType dataStruct
  mergeMap fuel original patch t true true

/-- `MergingMapsHaveConflicts`. -/
def MergingMapsHaveConflicts (fuel : Nat) (left right : Smap)
    (dataStruct : SType) : Except PatchError Bool := do
  let t ← getTagStructType dataStruct
  mergingMapFieldsHaveConflicts fuel (.obj left) (.obj right) t "" ""

/-- `CreateThreeWayMergePatch` at the map level (identity
(un)marshalling). -/
def CreateThreeWayMergePatch (fuel : Nat) (original modified current : Smap)
    (dataStruct : SType) (overwrite : Bool) (fns : List (Smap → Bool)) :
    Except PatchError Smap := do
  let t ← getTagStructType dataStruct
  let deltaMap ← diffMaps fuel current modified t false true
  let deletionsMap ← diffMaps fuel original modified t true false
  let patchMap ← mergeMap fuel deletionsMap deltaMap t false false
  if !fns.all (fun fn => fn patchMap) then .error .preconditionFailed
  else if !overwrite then do
    let changedMap ← diffMaps fuel original current t false false
    let hasConflicts ← MergingMapsHaveConflicts fuel patchMap changedMap dataStruct
    if hasConflicts then .error .conflict
    else .ok patchMap
  else .ok patchMap

/-! ## Priority work queue (`priority_queue.go`)

Sequential-state model of `PriorityType`.  The mutex, condition
variable, metrics and clock only affect scheduling and observability,
not which state each operation computes, so the model keeps the five
data fields and treats each exported method as an atomic state
transformer.  Items are strings (Go's `interface{}` keys under value
equality); the `set` type of the workqueue package (not among the shown
sources) is modelled from the spec's dirty/processing sets as a
duplicate-free list. -/

def defaultMinPriority : Int := 0
def defaultMaxPriority : Int := 12

/-- Membership test of the workqueue `set` type. -/
def setHas (s : List String) (item : String) : Bool := decide (item ∈ s)

/-- Insertion into the workqueue `set` type. -/
def setInsert (s : List String) (item : String) : List String :=
  if item ∈ s then s else item :: s

/-- Deletion from the workqueue `set` type. -/
def setDelete (s : List String) (item : String) : List String :=
  s.filter (fun x => x ≠ item)

/-- The state of a `PriorityType` queue. -/
structure PQState where
  minPriority : Int
  maxPriority : Int
  getPriorityFunc : String → Int
  priorityQueue : Int → List String
  dirty : List String
  processing : List String
  shuttingDown : Bool
  drain : Bool

/-- `clipInt`. -/
def clipInt (v min max : Int) : Int :=
  if v < min then min else if v > max then max else v

/-- `newPriorityQueue` (metrics and clock elided). -/
def newPriorityQueue (maxPriority : Int) (f : String → Int) : PQState :=
  { minPriority := defaultMinPriority
    maxPriority := maxPriority
    getPriorityFunc := f
    priorityQueue := fun _ => []
    dirty := []
    processing := []
    shuttingDown := false
    drain := false }

/-- `NewPriority`: default max priority and a constant-zero priority
function. -/
def NewPriority : PQState :=
  newPriorityQueue defaultMaxPriority (fun _ => defaultMinPriority)

/-- `Add`: mark an item as needing processing. -/
def PQState.Add (q : PQState) (item : String) : PQState :=
  if q.shuttingDown then q
  else if setHas q.dirty item then q
  else
    let q1 := { q with dirty := setInsert q.dirty item }
    if setHas q1.processing item then q1
    else
      let priority := clipInt (q1.getPriorityFunc item) q1.minPriority q1.maxPriority
      { q1 with priorityQueue := fun i =>
          if i = priority then q1.priorityQueue i ++ [item] else q1.priorityQueue i }

/-- The ascending list of priority levels `[lo..hi]`. -/
def intRangeAsc (lo hi : Int) : List Int :=
  (List.range (hi + 1 - lo).toNat).map (fun (n : Nat) => lo + (n : Int))

/-- `lenNoLock`: total number of queued items over the declared priority
range. -/
def PQState.lenNoLock (q : PQState) : Nat :=
  ((intRangeAsc q.minPriority q.maxPriority).map
    (fun i => (q.priorityQueue i).length)).sum

/-- `Len`. -/
def PQState.Len (q : PQState) : Nat := q.lenNoLock

/-- The scan of `Get` for the highest non-empty bucket
(`for i := q.maxPriority; i >= q.minPriority; i--`). -/
def PQState.scanHighest (q : PQState) : Option Int :=
  (intRangeAsc q.minPriority q.maxPriority).reverse.find?
    (fun i => !(q.priorityQueue i).isEmpty)

/-- The outcome of `Get` in a sequential execution: an item, the
`(nil, true)` shutdown signal, or blocking forever on the condition
variable (no producer can intervene in a sequential model). -/
inductive GetResult where
  | item (x : String) : GetResult
  | quit : GetResult
  | blocked : GetResult
  deriving DecidableEq, Repr

/-- `Get`: wait for an item or shutdown; pop the head of the
highest-priority non-empty bucket, move it to `processing`, drop it from
`dirty`.  The `none` branch of the scan is unreachable when
`lenNoLock > 0`. -/
def PQState.Get (q : PQState) : GetResult × PQState :=
  if q.lenNoLock = 0 && !q.shuttingDown then (.blocked, q)
  else if q.lenNoLock = 0 then (.quit, q)
  else
    match q.scanHighest with
    | none => (.blocked, q)
    | some currentPriority =>
      let item := (q.priorityQueue currentPriority).headD ""
      let q1 := { q with priorityQueue := fun i =>
          if i = currentPriority then (q.priorityQueue i).tail else q.priorityQueue i }
      (.item item,
        { q1 with processing := setInsert q1.processing item,
                  dirty := setDelete q1.dirty item })

/-- `Done`: remove from `processing`; a still-dirty item is re-enqueued
at `q.getPriorityFunc item` — the source does not clamp this priority
(contrast `Add`). -/
def PQState.Done (q : PQState) (item : String) : PQState :=
  let q1 := { q with processing := setDelete q.processing item }
  if setHas q1.dirty item then
    let priority := q1.getPriorityFunc item
    { q1 with priorityQueue := fun i =>
        if i = priority then q1.priorityQueue i ++ [item] else q1.priorityQueue i }
  else q1

/-- `setDrain`. -/
def PQState.setDrain (q : PQState) (shouldDrain : Bool) : PQState :=
  { q with drain := shouldDrain }

/-- The internal `shutdown` (sets the flag and broadcasts). -/
def PQState.shutdownNow (q : PQState) : PQState :=
  { q with shuttingDown := true }

/-- `ShutDown`. -/
def PQState.ShutDown (q : PQState) : PQState :=
  (q.setDrain false).shutdownNow

/-- `ShutDownWithDrain` (the post-shutdown wait loop blocks on other
threads' `Done` calls and performs no state change of its own). -/
def PQState.ShutDownWithDrain (q : PQState) : PQState :=
  (q.setDrain true).shutdownNow

/-- `ShuttingDown`. -/
def PQState.ShuttingDown (q : PQState) : Bool := q.shuttingDown

/-! ## Association-map lemmas -/

theorem lookup_insertKey (m : Smap) (k : String) (v : JSON) (k' : String) :
    lookupKey (insertKey m k v) k' = if k = k' then some v else lookupKey m k' := by
  induction m with
  | nil => simp [insertKey, lookupKey]
  | cons kv rest ih =>
    obtain ⟨k0, w⟩ := kv
    simp only [insertKey]
    by_cases h1 : k < k0
    · rw [if_pos h1]
      simp only [lookupKey]
    · rw [if_neg h1]
      by_cases h2 : k = k0
      · rw [if_pos h2]
        subst h2
        by_cases h3 : k = k' <;> simp [lookupKey, h3]
      · rw [if_neg h2]
        simp only [lookupKey, ih]
        by_cases h3 : k0 = k'
        · have h4 : ¬ k = k' := fun hh => h2 (hh.trans h3.symm)
          simp [h3, h4]
        · simp [h3]

theorem lookup_removeKey (m : Smap) (k k' : String) :
    lookupKey (removeKey m k) k' = if k = k' then none else lookupKey m k' := by
  induction m with
  | nil => simp [removeKey, lookupKey]
  | cons kv rest ih =>
    obtain ⟨k0, w⟩ := kv
    simp only [removeKey, List.filter_cons, ne_eq, decide_not] at ih ⊢
    by_cases h0 : k0 = k
    · subst h0
      rw [if_neg (by simp)]
      by_cases h2 : k0 = k' <;> simpa [h2, lookupKey] using ih
    · have hd : (!decide (k0 = k)) = true := by simp [h0]
      rw [if_pos hd]
      simp only [lookupKey]
      by_cases h3 : k0 = k'
      · subst h3
        simp [Ne.symm h0]
      · simp [h3, ih]

theorem lookup_isSome_of_mem {m : Smap} {k : String} {v : JSON} (h : (k, v) ∈ m) :
    (lookupKey m k).isSome := by
  induction m with
  | nil => cases h
  | cons kv rest ih =>
    obtain ⟨k0, w⟩ := kv
    rcases List.mem_cons.mp h with h1 | h1
    · cases h1
      simp [lookupKey]
    · by_cases h0 : k0 = k
      · simp [lookupKey, h0]
      · simp [lookupKey, h0, ih h1]

theorem lookup_eq_none_of_all_ne {m : Smap} {k : String}
    (h : ∀ kv ∈ m, kv.1 ≠ k) : lookupKey m k = none := by
  induction m with
  | nil => rfl
  | cons kv rest ih =>
    obtain ⟨k0, w⟩ := kv
    simp only [lookupKey]
    rw [if_neg (h (k0, w) (by simp))]
    exact ih (fun kv hkv => h kv (by simp [hkv]))

theorem mem_of_lookup_eq_some {m : Smap} {k : String} {v : JSON}
    (h : lookupKey m k = some v) : (k, v) ∈ m := by
  induction m with
  | nil => simp [lookupKey] at h
  | cons kv rest ih =>
    obtain ⟨k0, w⟩ := kv
    simp only [lookupKey] at h
    by_cases h0 : k0 = k
    · subst h0
      rw [if_pos rfl] at h
      injection h with h
      simp [h]
    · rw [if_neg h0] at h
      simp [ih h]

theorem Canonical.tail_lookup_none {k : String} {v : JSON} {m : Smap}
    (h : Canonical ((k, v) :: m)) : lookupKey m k = none := by
  apply lookup_eq_none_of_all_ne
  intro kv hkv
  have := (List.pairwise_cons.mp h).1 kv hkv
  exact fun he => absurd (he ▸ this) (lt_irrefl k)

theorem Canonical.of_cons {kv : String × JSON} {m : Smap}
    (h : Canonical (kv :: m)) : Canonical m :=
  (List.pairwise_cons.mp h).2

theorem mem_insertKey {m : Smap} {k : String} {v : JSON} {kv : String × JSON}
    (h : kv ∈ insertKey m k v) : kv = (k, v) ∨ kv ∈ m := by
  induction m with
  | nil => simpa [insertKey] using h
  | cons kv0 rest ih =>
    obtain ⟨k0, w⟩ := kv0
    simp only [insertKey] at h
    by_cases h1 : k < k0
    · rw [if_pos h1] at h
      exact List.mem_cons.mp h
    · rw [if_neg h1] at h
      by_cases h2 : k = k0
      · rw [if_pos h2] at h
        rcases List.mem_cons.mp h with h3 | h3
        · exact Or.inl h3
        · exact Or.inr (List.mem_cons_of_mem _ h3)
      · rw [if_neg h2] at h
        rcases List.mem_cons.mp h with h3 | h3
        · exact Or.inr (h3 ▸ List.mem_cons_self _ _)
        · rcases ih h3 with h4 | h4
          · exact Or.inl h4
          · exact Or.inr (List.mem_cons_of_mem _ h4)

theorem canonical_insertKey {m : Smap} (h : Canonical m) (k : String) (v : JSON) :
    Canonical (insertKey m k v) := by
  induction m with
  | nil => simp [Canonical, insertKey]
  | cons kv0 rest ih =>
    obtain ⟨k0, w⟩ := kv0
    have hrest := Canonical.of_cons h
    have hlt := (List.pairwise_cons.mp h).1
    simp only [insertKey]
    by_cases h1 : k < k0
    · rw [if_pos h1]
      refine List.pairwise_cons.mpr ⟨?_, h⟩
      intro kv1 hk1
      rcases List.mem_cons.mp hk1 with h2 | h2
      · subst h2
        exact h1
      · exact lt_trans h1 (hlt kv1 h2)
    · rw [if_neg h1]
      by_cases h2 : k = k0
      · rw [if_pos h2]
        subst h2
        exact List.pairwise_cons.mpr ⟨hlt, hrest⟩
      · rw [if_neg h2]
        refine List.pairwise_cons.mpr ⟨?_, ih hrest⟩
        intro kv1 hk1
        rcases mem_insertKey hk1 with h3 | h3
        · subst h3
          exact lt_of_le_of_ne (not_lt.mp h1) (fun hh => h2 hh.symm)
        · exact hlt kv1 h3

theorem canonical_removeKey {m : Smap} (h : Canonical m) (k : String) :
    Canonical (removeKey m k) :=
  List.Pairwise.filter _ h


theorem canonical_ext {m : Smap} : ∀ {n : Smap}, Canonical m → Canonical n →
    (∀ k, lookupKey m k = lookupKey n k) → m = n := by
  induction m with
  | nil =>
    intro n _ hn h
    cases n with
    | nil => rfl
    | cons kv n' =>
      obtain ⟨k2, v2⟩ := kv
      have := h k2
      simp [lookupKey] at this
  | cons kv m' ih =>
    intro n hm hn h
    obtain ⟨k1, v1⟩ := kv
    cases n with
    | nil =>
      have := h k1
      simp [lookupKey] at this
    | cons kv2 n' =>
      obtain ⟨k2, v2⟩ := kv2
      have hk12 : k1 = k2 := by
        by_contra hne
        have hl1 : lookupKey ((k2, v2) :: n') k1 = some v1 := by
          rw [← h k1]
          simp [lookupKey]
        have hl2 : lookupKey ((k1, v1) :: m') k2 = some v2 := by
          rw [h k2]
          simp [lookupKey]
        rw [lookupKey, if_neg (fun hh => hne hh.symm)] at hl1
        rw [lookupKey, if_neg hne] at hl2
        have ha : k2 < k1 := (List.pairwise_cons.mp hn).1 _ (mem_of_lookup_eq_some hl1)
        have hb : k1 < k2 := (List.pairwise_cons.mp hm).1 _ (mem_of_lookup_eq_some hl2)
        exact absurd (lt_trans hb ha) (lt_irrefl k1)
      subst hk12
      have hv : v1 = v2 := by
        have hx := h k1
        simpa [lookupKey] using hx
      subst hv
      have htails : ∀ k, lookupKey m' k = lookupKey n' k := by
        intro k
        by_cases hk : k1 = k
        · subst hk
          rw [Canonical.tail_lookup_none hm, Canonical.tail_lookup_none hn]
        · have hx := h k
          rw [lookupKey, if_neg hk, lookupKey, if_neg hk] at hx
          exact hx
      rw [ih (Canonical.of_cons hm) (Canonical.of_cons hn) htails]

/-! ## Queue lemmas -/

theorem setInsert_has (s : List String) (x : String) :
    setHas (setInsert s x) x = true := by
  by_cases h : x ∈ s <;> simp [setInsert, setHas, h]

theorem Add_shuttingDown (q : PQState) (x : String) (h : q.shuttingDown = true) :
    q.Add x = q := by
  simp [PQState.Add, h]

theorem Add_processing (q : PQState) (x : String) (h1 : q.shuttingDown = false)
    (h2 : setHas q.processing x = true) :
    setHas (q.Add x).dirty x = true ∧ (q.Add x).priorityQueue = q.priorityQueue := by
  have h2' : x ∈ q.processing := by simpa [setHas] using h2
  by_cases hd : setHas q.dirty x = true
  · have hd' : x ∈ q.dirty := by simpa [setHas] using hd
    simp [PQState.Add, h1, hd, hd', setHas]
  · have hd' : ¬ x ∈ q.dirty := by simpa [setHas] using hd
    simp [PQState.Add, h1, hd, hd', h2', setHas, setInsert]

theorem Get_no_bucket_insert (q : PQState) (i : Int) (y : String)
    (h : y ∈ (q.Get.2).priorityQueue i) : y ∈ q.priorityQueue i := by
  unfold PQState.Get at h
  by_cases h1 : (q.lenNoLock = 0 && !q.shuttingDown) = true
  · simpa [h1] using h
  · simp only [h1, Bool.false_eq_true, if_false] at h
    by_cases h2 : q.lenNoLock = 0
    · simpa [h2] using h
    · simp only [h2, if_false] at h
      cases hscan : q.scanHighest with
      | none => simpa [hscan] using h
      | some cp =>
        simp only [hscan] at h
        by_cases hi : i = cp
        · subst hi
          simp only [if_pos rfl] at h
          exact List.tail_subset _ h
        · simpa [hi] using h

theorem Done_not_dirty (q : PQState) (x : String) (h : setHas q.dirty x = false) :
    (q.Done x).priorityQueue = q.priorityQueue := by
  simp [PQState.Done, h]

theorem Done_dirty (q : PQState) (x : String) (h : setHas q.dirty x = true) :
    (q.Done x).priorityQueue (q.getPriorityFunc x) =
      q.priorityQueue (q.getPriorityFunc x) ++ [x] := by
  simp [PQState.Done, h]

theorem Get_quit_of_shutdown_empty (q : PQState) (h1 : q.shuttingDown = true)
    (h2 : q.lenNoLock = 0) : q.Get = (.quit, q) := by
  simp [PQState.Get, h1, h2]

theorem Add_in_range (q : PQState) (x : String) (i : Int)
    (hminmax : q.minPriority ≤ q.maxPriority)
    (hout : i < q.minPriority ∨ q.maxPriority < i) :
    (q.Add x).priorityQueue i = q.priorityQueue i := by
  by_cases h1 : q.shuttingDown
  · simp [PQState.Add, h1]
  · by_cases h2 : setHas q.dirty x
    · simp [PQState.Add, h1, h2]
    · by_cases h3 : setHas q.processing x
      · simp [PQState.Add, h1, h2, h3]
      · have hclip : q.minPriority ≤ clipInt (q.getPriorityFunc x) q.minPriority q.maxPriority ∧
            clipInt (q.getPriorityFunc x) q.minPriority q.maxPriority ≤ q.maxPriority := by
          unfold clipInt
          split
          · exact ⟨le_refl _, hminmax⟩
          · split
            · exact ⟨hminmax, le_refl _⟩
            · omega
        have hne : i ≠ clipInt (q.getPriorityFunc x) q.minPriority q.maxPriority := by
          rcases hout with hlt | hgt
          · exact fun he => absurd (he ▸ hclip.1) (by omega)
          · exact fun he => absurd (he ▸ hclip.2) (by omega)
        simp [PQState.Add, h1, h2, h3, hne]

theorem mem_intRangeAsc {lo hi p : Int} : p ∈ intRangeAsc lo hi ↔ lo ≤ p ∧ p ≤ hi := by
  unfold intRangeAsc
  rw [List.mem_map]
  constructor
  · rintro ⟨n, hn, he⟩
    rw [List.mem_range] at hn
    omega
  · intro hb
    exact ⟨(p - lo).toNat, List.mem_range.mpr (by omega), by omega⟩

theorem find?_split {α : Type} (P : α → Bool) :
    ∀ (l : List α) (a : α), l.find? P = some a →
      P a = true ∧ ∃ l1 l2, l = l1 ++ a :: l2 ∧ ∀ b ∈ l1, P b = false := by
  intro l
  induction l with
  | nil =>
    intro a h
    simp [List.find?] at h
  | cons x xs ih =>
    intro a h
    by_cases hx : P x = true
    · rw [List.find?_cons_of_pos _ hx] at h
      injection h with h
      subst h
      exact ⟨hx, [], xs, rfl, by simp⟩
    · rw [List.find?_cons_of_neg _ (by simpa using hx)] at h
      obtain ⟨hPa, l1, l2, hsplit, hfail⟩ := ih a h
      refine ⟨hPa, x :: l1, l2, by simp [hsplit], ?_⟩
      intro b hb
      rcases List.mem_cons.mp hb with hb | hb
      · subst hb
        simpa using hx
      · exact hfail b hb

theorem intRangeAsc_pairwise (lo hi : Int) : (intRangeAsc lo hi).Pairwise (· < ·) := by
  unfold intRangeAsc
  rw [List.pairwise_map]
  refine (List.pairwise_lt_range _).imp ?_
  intro a b h
  omega

theorem scanHighest_isSome_of_len_pos (q : PQState) (h : 0 < q.lenNoLock) :
    ∃ p, q.scanHighest = some p := by
  cases hscan : q.scanHighest with
  | some p => exact ⟨p, rfl⟩
  | none =>
    exfalso
    have hall := List.find?_eq_none.mp hscan
    have hzero : q.lenNoLock = 0 := by
      unfold PQState.lenNoLock
      apply List.sum_eq_zero
      intro n hn
      rcases List.mem_map.mp hn with ⟨i, hi, rfl⟩
      have := hall i (by simpa using hi)
      simp only [Bool.not_eq_true, Bool.not_eq_true'] at this
      simp [List.isEmpty_iff.mp (by simpa using this)]
    omega

theorem Get_highest (q : PQState) (h : 0 < q.lenNoLock) :
    ∃ p, q.minPriority ≤ p ∧ p ≤ q.maxPriority ∧ q.priorityQueue p ≠ [] ∧
      (∀ j, p < j → j ≤ q.maxPriority → q.priorityQueue j = []) ∧
      q.Get.1 = .item ((q.priorityQueue p).headD "") ∧
      q.Get.2.priorityQueue p = (q.priorityQueue p).tail := by
  obtain ⟨p, hp⟩ := scanHighest_isSome_of_len_pos q h
  obtain ⟨hfind, l1, l2, hsplit, hfail⟩ := find?_split _ _ _ hp
  have hmem : p ∈ intRangeAsc q.minPriority q.maxPriority := by
    have := List.mem_of_find?_eq_some hp
    simpa using this
  have hbounds := mem_intRangeAsc.mp hmem
  have hpne : q.priorityQueue p ≠ [] := by
    intro he
    simp [he] at hfind
  have hdesc : (l1 ++ p :: l2).Pairwise (fun a b : Int => b < a) := by
    rw [← hsplit]
    rw [List.pairwise_reverse]
    exact intRangeAsc_pairwise _ _
  have hmax : ∀ j, p < j → j ≤ q.maxPriority → q.priorityQueue j = [] := by
    intro j hj1 hj2
    have hjmem : j ∈ l1 ++ p :: l2 := by
      rw [← hsplit]
      simp only [List.mem_reverse]
      exact mem_intRangeAsc.mpr ⟨by omega, hj2⟩
    have hjl1 : j ∈ l1 := by
      rcases List.mem_append.mp hjmem with hj | hj
      · exact hj
      · exfalso
        rcases List.mem_cons.mp hj with hj | hj
        · omega
        · have hpl2 := (List.pairwise_cons.mp (List.pairwise_append.mp hdesc).2.1).1
          have := hpl2 j hj
          omega
    have := hfail j hjl1
    simp only [Bool.not_eq_true', Bool.not_eq_false] at this
    exact List.isEmpty_iff.mp (by simpa using this)
  have hlen : ¬(q.lenNoLock = 0) := by omega
  refine ⟨p, hbounds.1, hbounds.2, hpne, hmax, ?_, ?_⟩
  · simp [PQState.Get, hlen]
    rw [show q.scanHighest = some p from hp]
  · simp only [PQState.Get, hlen]
    rw [show q.scanHighest = some p from hp]
    simp

/-! ## Concrete scenario states -/

/-- The spec's "trivial schema" for the replicas scenario: a struct with
a plain `replicas` field. -/
def replicasSchema : SType := .structT [("replicas", .scalar, "", "")]

/-- A queue whose priority function maps "hi" to 2 and everything else
to 0. -/
def hiLoQueue : PQState := newPriorityQueue 12 (fun s => if s = "hi" then 2 else 0)

/-- A queue whose priority function always returns 13 (out of the
declared range 0..12). -/
def outOfRangeQueue : PQState := newPriorityQueue 12 (fun _ => 13)

/-- `Add "x"; Get; Add "x"; ShutDown` on the default queue: "x" is
dirty and processing when the queue shuts down. -/
def c4State : PQState := ((NewPriority.Add "x").Get.2.Add "x").ShutDown

/-- `Add "x"; Get; Add "x"; Done "x"` on the out-of-range queue. -/
def c5State : PQState := ((outOfRangeQueue.Add "x").Get.2.Add "x").Done "x"

/-- `Add "x"` on the default queue. -/
def c6Start : PQState := NewPriority.Add "x"

/-- `Add "x"; Get; Add "x"; Done "x"` on the default queue. -/
def c6Mid : PQState := (c6Start.Get.2.Add "x").Done "x"

/-- `Add "a"; ShutDown` on the default queue. -/
def c9State : PQState := (NewPriority.Add "a").ShutDown

/-! ## Claims -/

set_option maxRecDepth 8000 in
/-- C2: with original `{"replicas":1}`, modified `{"replicas":3}`,
current `{"replicas":5}` and the trivial replicas schema,
`CreateThreeWayMergePatch` returns the conflict error when
`overwrite = false` and the patch `{"replicas":3}` when
`overwrite = true`. -/
theorem C2_three_way_conflict :
    CreateThreeWayMergePatch 20 [("replicas", .num 1)] [("replicas", .num 3)]
      [("replicas", .num 5)] replicasSchema false [] = .error .conflict ∧
    CreateThreeWayMergePatch 20 [("replicas", .num 1)] [("replicas", .num 3)]
      [("replicas", .num 5)] replicasSchema true [] = .ok [("replicas", .num 3)] := by
  exact ⟨rfl, rfl⟩

/-- C8: for every original map and every patch map whose top-level
`$patch` directive is present with value `v`, `mergeMap` returns the
patch minus the directive when `v` is `"replace"`, the empty object when
`v` is `"delete"`, and the unknown-patch-type error for any other value
(including `"merge"`), producing no merged result. -/
theorem C8_mergeMap_directive (fuel : Nat) (original patch : Smap) (t : SType)
    (mergeDeleteList ignoreUnmatchedNulls : Bool) (v : JSON)
    (h : lookupKey patch directiveMarker = some v) :
    mergeMap (fuel+1) original patch t mergeDeleteList ignoreUnmatchedNulls =
      if v = .str replaceDirective then .ok (removeKey patch directiveMarker)
      else if v = .str deleteDirective then .ok []
      else .error .badPatchType := by
  simp only [mergeMap, h]

theorem C8_mergeMap_directive_witness :
    mergeMap 10 [("a", JSON.num 1)] [("$patch", JSON.str "merge")] (SType.structT [])
      true true = .error .badPatchType := by
  have h := C8_mergeMap_directive 9 [("a", JSON.num 1)] [("$patch", JSON.str "merge")]
    (SType.structT []) true true (JSON.str "merge") (by rfl)
  simpa using h

/-- C4 counterexample: the claim "once `shuttingDown` is set, no
subsequent operation inserts any item into any bucket" fails: after
`Add "x"; Get; Add "x"; ShutDown`, the call `Done "x"` inserts "x" into
bucket 0 although `shuttingDown` is already true (the repository's own
drain-with-dirty-item test exercises exactly this re-enqueue). -/
theorem C4_counterexample :
    c4State.shuttingDown = true ∧ c4State.priorityQueue 0 = [] ∧
    (c4State.Done "x").priorityQueue 0 = ["x"] := by
  exact ⟨rfl, rfl, rfl⟩

/-- C4 (amended): once `shuttingDown` is set, `Add` leaves the state
unchanged and `Get` never inserts into any bucket; `Done`, however,
still inserts the finished item into a bucket exactly when the item is
dirty, shutdown or not. -/
theorem C4_amended_no_insert_after_shutdown :
    (∀ (q : PQState) (x : String), q.shuttingDown = true → q.Add x = q) ∧
    (∀ (q : PQState) (i : Int) (y : String),
      y ∈ (q.Get.2).priorityQueue i → y ∈ q.priorityQueue i) ∧
    (∀ (q : PQState) (x : String), setHas q.dirty x = false →
      (q.Done x).priorityQueue = q.priorityQueue) ∧
    (∀ (q : PQState) (x : String), setHas q.dirty x = true →
      (q.Done x).priorityQueue (q.getPriorityFunc x) =
        q.priorityQueue (q.getPriorityFunc x) ++ [x]) :=
  ⟨Add_shuttingDown, Get_no_bucket_insert, Done_not_dirty, Done_dirty⟩

theorem C4_amended_witness :
    (c4State.Add "y" = c4State) ∧
    ((NewPriority.Done "z").priorityQueue = NewPriority.priorityQueue) ∧
    ((c4State.Done "x").priorityQueue (c4State.getPriorityFunc "x") =
      c4State.priorityQueue (c4State.getPriorityFunc "x") ++ ["x"]) :=
  ⟨C4_amended_no_insert_after_shutdown.1 c4State "y" (by rfl),
   C4_amended_no_insert_after_shutdown.2.2.1 NewPriority "z" (by rfl),
   C4_amended_no_insert_after_shutdown.2.2.2 c4State "x" (by rfl)⟩

/-- C5: the in-range invariant holds for `Add` (which clamps with
`clipInt`), but `Done` re-enqueues a still-dirty item at the raw
priority-function value: with `maxPriority = 12` and a priority function
returning 13, `Add "x"; Get; Add "x"; Done "x"` places "x" in bucket 13,
outside `[minPriority, maxPriority]`, where `Len`/`Get` (which only scan
0..12) can never see it again. -/
theorem C5_done_skips_clip :
    (∀ (q : PQState) (x : String) (i : Int), q.minPriority ≤ q.maxPriority →
      (i < q.minPriority ∨ q.maxPriority < i) →
      (q.Add x).priorityQueue i = q.priorityQueue i) ∧
    (outOfRangeQueue.Add "x").priorityQueue 12 = ["x"] ∧
    outOfRangeQueue.maxPriority = 12 ∧
    c5State.priorityQueue 13 = ["x"] ∧
    c5State.lenNoLock = 0 := by
  refine ⟨fun q x i h1 h2 => Add_in_range q x i h1 h2, rfl, rfl, rfl, by decide⟩

theorem C5_done_skips_clip_witness :
    (outOfRangeQueue.Add "x").priorityQueue 20 = outOfRangeQueue.priorityQueue 20 :=
  C5_done_skips_clip.1 outOfRangeQueue "x" 20 (by decide) (Or.inr (by decide))

/-- C6: an `Add` of an item that is in the processing set (queue not
shutting down) puts the item in the dirty set and into no bucket;
concretely, after `Add "x"; Get; Add "x"; Done "x"` the next `Get`
returns "x" once more and a further `Get` finds the queue empty (blocks). -/
theorem C6_dedup_while_processing :
    (∀ (q : PQState) (x : String), q.shuttingDown = false →
      setHas q.processing x = true →
      setHas (q.Add x).dirty x = true ∧ (q.Add x).priorityQueue = q.priorityQueue) ∧
    c6Start.Get.1 = .item "x" ∧
    c6Mid.Get.1 = .item "x" ∧
    c6Mid.Get.2.Get.1 = .blocked := by
  exact ⟨Add_processing, rfl, rfl, rfl⟩

theorem C6_dedup_while_processing_witness :
    setHas (c6Start.Get.2.Add "x").dirty "x" = true ∧
    (c6Start.Get.2.Add "x").priorityQueue = c6Start.Get.2.priorityQueue :=
  C6_dedup_while_processing.1 c6Start.Get.2 "x" (by rfl) (by rfl)

/-- C7: whenever the queue is non-empty, `Get` returns the head of the
highest-priority non-empty bucket within the declared range (and pops
it); in particular with priorities "hi" → 2 and "lo" → 0, after
`Add "lo"; Add "hi"` the first `Get` returns "hi" and the next "lo". -/
theorem C7_strict_priority :
    (∀ q : PQState, 0 < q.lenNoLock →
      ∃ p, q.minPriority ≤ p ∧ p ≤ q.maxPriority ∧ q.priorityQueue p ≠ [] ∧
        (∀ j, p < j → j ≤ q.maxPriority → q.priorityQueue j = []) ∧
        q.Get.1 = .item ((q.priorityQueue p).headD "") ∧
        q.Get.2.priorityQueue p = (q.priorityQueue p).tail) ∧
    ((hiLoQueue.Add "lo").Add "hi").Get.1 = .item "hi" ∧
    ((hiLoQueue.Add "lo").Add "hi").Get.2.Get.1 = .item "lo" := by
  exact ⟨Get_highest, rfl, rfl⟩

theorem C7_strict_priority_witness :
    0 < ((hiLoQueue.Add "lo").Add "hi").lenNoLock ∧
    (∃ p, ((hiLoQueue.Add "lo").Add "hi").minPriority ≤ p ∧
      p ≤ ((hiLoQueue.Add "lo").Add "hi").maxPriority ∧
      ((hiLoQueue.Add "lo").Add "hi").priorityQueue p ≠ [] ∧
      (∀ j, p < j → j ≤ ((hiLoQueue.Add "lo").Add "hi").maxPriority →
        ((hiLoQueue.Add "lo").Add "hi").priorityQueue j = []) ∧
      ((hiLoQueue.Add "lo").Add "hi").Get.1 =
        .item ((((hiLoQueue.Add "lo").Add "hi").priorityQueue p).headD "") ∧
      ((hiLoQueue.Add "lo").Add "hi").Get.2.priorityQueue p =
        ((((hiLoQueue.Add "lo").Add "hi").priorityQueue p)).tail) :=
  ⟨by decide, C7_strict_priority.1 _ (by decide)⟩

/-- C9 counterexample: the claim "after `ShutDown` every call to `Get`
returns `(nil, true)`" fails: items still queued at shutdown are
returned.  After `Add "a"; ShutDown`, `Get` returns the item "a", not
the shutdown signal. -/
theorem C9_counterexample :
    c9State.shuttingDown = true ∧ c9State.Get.1 = .item "a" ∧
    GetResult.item "a" ≠ .quit := by
  exact ⟨rfl, rfl, by decide⟩

/-- C9 (amended): after `ShutDown`, `Add` leaves the queue unchanged
(silently dropped), and `Get` returns `(nil, true)` whenever all
in-range buckets are empty; a non-empty queue still hands out its
remaining items. -/
theorem C9_amended_shutdown_behaviour :
    (∀ (q : PQState) (x : String), q.shuttingDown = true → q.Add x = q) ∧
    (∀ q : PQState, q.shuttingDown = true → q.lenNoLock = 0 → q.Get = (.quit, q)) :=
  ⟨Add_shuttingDown, Get_quit_of_shutdown_empty⟩

theorem C9_amended_witness :
    (NewPriority.ShutDown.Add "w" = NewPriority.ShutDown) ∧
    (NewPriority.ShutDown.Get = (.quit, NewPriority.ShutDown)) :=
  ⟨C9_amended_shutdown_behaviour.1 _ "w" rfl,
   C9_amended_shutdown_behaviour.2 _ rfl (by decide)⟩

/-- C1 counterexample: the exact round-trip fails on explicit nulls.
With `a = {}` and `b = {"k": null}`, the two-way patch is
`{"k": null}`, but applying it to `a` yields `{}`, not `b`: the
apply path runs `mergeMap` with `ignoreUnmatchedNulls = true`, which
drops the null instead of reproducing it. -/
theorem C1_counterexample :
    CreateTwoWayMergeMapPatch 10 [] [("k", JSON.null)] (SType.structT []) [] =
      .ok [("k", JSON.null)] ∧
    StrategicMergeMapPatch 10 [] [("k", JSON.null)] (SType.structT []) = .ok [] ∧
    ([] : Smap) ≠ [("k", JSON.null)] := by
  exact ⟨rfl, rfl, by decide⟩

set_option maxRecDepth 8000 in
/-- C3 counterexample: `CreateThreeWayMergePatch(a, a, c, S, true)` is
not `{}` in general: fields of `a` missing from the current document are
propagated.  With `a = {"x":1}` and `c = {}` the patch is `{"x":1}`. -/
theorem C3_counterexample :
    CreateThreeWayMergePatch 10 [("x", JSON.num 1)] [("x", JSON.num 1)] []
      (SType.structT []) true [] = .ok [("x", JSON.num 1)] ∧
    [("x", JSON.num 1)] ≠ ([] : Smap) := by
  exact ⟨rfl, by decide⟩

/-- C10 counterexample: the result of `MergingMapsHaveConflicts` does
not depend only on common keys: a `$patch` directive present in only one
of the two maps is itself reported as a conflict.  Here `L` and `R`
share no key at all, yet the result flips from no-conflict to conflict
when the one-sided `$patch` key is added. -/
theorem C10_counterexample :
    MergingMapsHaveConflicts 10 [("$patch", JSON.str "delete")] [] (SType.structT []) =
      .ok true ∧
    MergingMapsHaveConflicts 10 [] [] (SType.structT []) = .ok false := by
  exact ⟨rfl, rfl⟩

/-! ## C10: conflicts and one-sided keys -/

theorem mapsHaveConflictsGo_disjoint (t : SType) (R : Smap) :
    ∀ (fuel : Nat) (L : List (String × JSON)),
      (∀ kv ∈ L, lookupKey R kv.1 = none) → L.length ≤ fuel →
      mapsHaveConflictsGo fuel R t L = .ok false := by
  intro fuel
  induction fuel with
  | zero =>
    intro L h hl
    cases L with
    | nil => rfl
    | cons kv rest => simp at hl
  | succ fuel ih =>
    intro L h hl
    cases L with
    | nil => rfl
    | cons kv rest =>
      obtain ⟨k, v⟩ := kv
      have hrest : ∀ kv ∈ rest, lookupKey R kv.1 = none :=
        fun kv hkv => h kv (by simp [hkv])
      have hlen : rest.length ≤ fuel := by simpa using hl
      simp only [mapsHaveConflictsGo]
      by_cases hk : k ≠ directiveMarker
      · rw [if_pos hk, h (k, v) (by simp)]
        exact ih rest hrest hlen
      · rw [if_neg hk]
        exact ih rest hrest hlen

/-- C10 (amended): apart from the `$patch` directive marker (whose
asymmetric presence is itself a conflict), `MergingMapsHaveConflicts`
never reports a conflict because of a key present in only one of the two
maps: two maps with disjoint key sets and no directive markers are
conflict-free. -/
theorem C10_amended_conflicts_need_common_keys (fuel : Nat) (L R : Smap)
    (flds : List (String × SType × String × String))
    (hdisj : ∀ kv ∈ L, lookupKey R kv.1 = none)
    (hL : lookupKey L directiveMarker = none)
    (hR : lookupKey R directiveMarker = none)
    (hfuel : L.length + 2 ≤ fuel) :
    MergingMapsHaveConflicts fuel L R (SType.structT flds) = .ok false := by
  obtain ⟨fuel, rfl⟩ : ∃ f, fuel = f + 1 := ⟨fuel - 1, by omega⟩
  simp only [MergingMapsHaveConflicts, getTagStructType, bind, Except.bind]
  simp only [mergingMapFieldsHaveConflicts, hL, hR, Option.isSome_none]
  have hrepl : directiveMarker ≠ replaceDirective := by decide
  have hsub : ("" : String) = replaceDirective ↔ False := by
    constructor
    · intro h
      exact absurd h (by decide)
    · intro h
      exact h.elim
  simp only [hsub, ne_eq, if_false, iff_false]
  exact mapsHaveConflictsGo_disjoint _ _ _ _ hdisj (by omega)

theorem C10_amended_witness :
    MergingMapsHaveConflicts 5 [("a", JSON.num 1)] [("b", JSON.num 2)]
      (SType.structT []) = .ok false :=
  C10_amended_conflicts_need_common_keys 5 [("a", JSON.num 1)] [("b", JSON.num 2)] []
    (by
      intro kv hkv
      simp only [List.mem_singleton] at hkv
      simp [hkv, lookupKey]) (by rfl) (by rfl) (by decide)

/-! ## C3: three-way patch with identical original and modified -/

theorem lookup_of_mem_canonical {m : Smap} {k : String} {v : JSON}
    (hcan : Canonical m) (h : (k, v) ∈ m) : lookupKey m k = some v := by
  induction m with
  | nil => cases h
  | cons kv0 rest ih =>
    obtain ⟨k0, w⟩ := kv0
    rcases List.mem_cons.mp h with h1 | h1
    · injection h1 with e1 e2
      subst e1
      subst e2
      simp [lookupKey]
    · have hk : k0 ≠ k := by
        intro he
        subst he
        have := (List.pairwise_cons.mp hcan).1 _ h1
        exact absurd this (lt_irrefl _)
      simp only [lookupKey, if_neg hk]
      exact ih (Canonical.of_cons hcan) h1

/-- Proof-side predicate: documents whose self-diff is empty-safe — all
object bodies canonical, every `$patch` value a string, no arrays
anywhere (merge-list sorting is out of scope of this predicate). -/
inductive SelfDiffSafe : JSON → Prop where
  | nullSafe : SelfDiffSafe .null
  | boolSafe (b : Bool) : SelfDiffSafe (.bool b)
  | numSafe (n : Int) : SelfDiffSafe (.num n)
  | strSafe (s : String) : SelfDiffSafe (.str s)
  | objSafe (kvs : Smap) (hcan : Canonical kvs)
      (hdir : ∀ v : JSON, (directiveMarker, v) ∈ kvs → ∃ s, v = .str s)
      (hrec : ∀ kv ∈ kvs, SelfDiffSafe kv.2) : SelfDiffSafe (.obj kvs)

theorem sameKind_refl (v : JSON) : sameKind v v = true := by
  simp [sameKind]

theorem fold_del_skip (m : Smap) :
    ∀ (l : List (String × JSON)) (acc : Smap),
      (∀ kv ∈ l, (lookupKey m kv.1).isSome) →
      l.foldl (fun acc kv =>
        if (lookupKey m kv.1).isNone then insertKey acc kv.1 .null else acc) acc = acc := by
  intro l
  induction l with
  | nil => intro acc _; rfl
  | cons kv rest ih =>
    intro acc h
    have h1 := h kv (by simp)
    simp only [List.foldl_cons]
    rw [if_neg (by simp [Option.isNone_iff_eq_none]; intro he; rw [he] at h1; simp at h1)]
    exact ih acc (fun kv hkv => h kv (by simp [hkv]))

theorem diffMaps_self_aux :
    ∀ fuel : Nat,
      (∀ (a : Smap) (t : SType) (iD : Bool), SelfDiffSafe (.obj a) →
        diffMaps fuel a a t true iD = .ok [] ∨
        diffMaps fuel a a t true iD = .error .fuelExhausted) ∧
      (∀ (a : Smap) (sub : List (String × JSON)) (t : SType) (iD : Bool) (patch : Smap),
        (∀ kv ∈ sub, lookupKey a kv.1 = some kv.2 ∧ SelfDiffSafe kv.2) →
        (∀ v : JSON, (directiveMarker, v) ∈ sub → ∃ s, v = .str s) →
        diffMapsFields fuel a t true iD patch sub = .ok patch ∨
        diffMapsFields fuel a t true iD patch sub = .error .fuelExhausted) := by
  intro fuel
  induction fuel with
  | zero =>
    constructor
    · intro a t iD _
      exact Or.inr rfl
    · intro a sub t iD patch _ _
      cases sub with
      | nil => exact Or.inl rfl
      | cons kv rest => exact Or.inr rfl
  | succ fuel ih =>
    constructor
    · intro a t iD hsafe
      cases hsafe with
      | objSafe _ hcan hdir hrec =>
        have hsub : ∀ kv ∈ a, lookupKey a kv.1 = some kv.2 ∧ SelfDiffSafe kv.2 :=
          fun kv hkv => ⟨lookup_of_mem_canonical hcan (by cases kv; exact hkv), hrec kv hkv⟩
        rcases ih.2 a a t iD [] hsub hdir with hok | herr
        · left
          simp only [diffMaps, hok, Except.bind, bind]
          by_cases hiD : iD = true
          · rw [if_neg (by simp [hiD])]
          · rw [if_pos (by simp [hiD]),
              fold_del_skip a a ([] : Smap) (fun kv hkv => by simp [(hsub kv hkv).1])]
        · right
          simp only [diffMaps, herr, Except.bind, bind]
    · intro a sub t iD patch hsub hdir
      cases sub with
      | nil => exact Or.inl rfl
      | cons kv rest =>
        obtain ⟨key, v⟩ := kv
        have hl : lookupKey a key = some v := (hsub (key, v) (by simp)).1
        have hs : SelfDiffSafe v := (hsub (key, v) (by simp)).2
        have hrest : ∀ kv ∈ rest, lookupKey a kv.1 = some kv.2 ∧ SelfDiffSafe kv.2 :=
          fun kv hkv => hsub kv (by simp [hkv])
        have hdirrest : ∀ w : JSON, (directiveMarker, w) ∈ rest → ∃ s, w = .str s :=
          fun w hw => hdir w (by simp [hw])
        simp only [diffMapsFields, hl]
        by_cases hkey : key = directiveMarker
        · obtain ⟨s, rfl⟩ := hdir v (by simp [hkey])
          simp only [if_pos hkey]
          simpa using ih.2 a rest t iD patch hrest hdirrest
        · simp only [if_neg hkey, sameKind_refl, Bool.not_true, Bool.false_eq_true, if_false]
          cases hs with
          | nullSafe =>
            simpa using ih.2 a rest t iD patch hrest hdirrest
          | boolSafe b =>
            simpa using ih.2 a rest t iD patch hrest hdirrest
          | numSafe n =>
            simpa using ih.2 a rest t iD patch hrest hdirrest
          | strSafe s =>
            simpa using ih.2 a rest t iD patch hrest hdirrest
          | objSafe oF hcan2 hdir2 hrec2 =>
            cases hlk : LookupPatchMetadata t key with
            | error e =>
              simpa using ih.2 a rest t iD patch hrest hdirrest
            | ok r =>
              obtain ⟨ft, strat, mk⟩ := r
              by_cases hstrat : strat = replaceDirective
              · simp only [if_pos hstrat, Bool.not_true, Bool.false_eq_true, if_false]
                simpa using ih.2 a rest t iD patch hrest hdirrest
              · simp only [if_neg hstrat]
                have hsafe2 : SelfDiffSafe (.obj oF) := .objSafe oF hcan2 hdir2 hrec2
                rcases ih.1 oF ft iD hsafe2 with hok | herr
                · rw [hok]
                  simp only [Except.bind, bind, List.length_nil, gt_iff_lt, lt_irrefl,
                    if_false]
                  simpa using ih.2 a rest t iD patch hrest hdirrest
                · rw [herr]
                  right
                  rfl

instance : DecidableEq (Except PatchError Smap) := fun a b =>
  match a, b with
  | .ok x, .ok y =>
    if h : x = y then .isTrue (by rw [h]) else .isFalse (fun hh => h (Except.ok.inj hh))
  | .error x, .error y =>
    if h : x = y then .isTrue (by rw [h]) else .isFalse (fun hh => h (Except.error.inj hh))
  | .ok _, .error _ => .isFalse (fun hh => Except.noConfusion hh)
  | .error _, .ok _ => .isFalse (fun hh => Except.noConfusion hh)

theorem insertKey_append {m : Smap} {k : String} (v : JSON)
    (h : ∀ kv ∈ m, kv.1 < k) : insertKey m k v = m ++ [(k, v)] := by
  induction m with
  | nil => rfl
  | cons kv0 rest ih =>
    obtain ⟨k0, w⟩ := kv0
    have h0 : k0 < k := h (k0, w) (by simp)
    simp only [insertKey]
    rw [if_neg (fun hh => absurd (lt_trans h0 hh) (lt_irrefl _)),
      if_neg (fun he => absurd (he ▸ h0) (lt_irrefl _))]
    simp [ih (fun kv hkv => h kv (by simp [hkv]))]

theorem removeKey_of_none {m : Smap} {k : String} (h : lookupKey m k = none) :
    removeKey m k = m := by
  unfold removeKey
  apply List.filter_eq_self.mpr
  intro kv hkv
  obtain ⟨k0, v0⟩ := kv
  simp only [ne_eq, decide_eq_true_eq]
  intro he
  subst he
  have := lookup_isSome_of_mem hkv
  rw [h] at this
  simp at this

theorem mergeMapFields_empty_orig (t : SType) :
    ∀ (fuel : Nat) (p orig : List (String × JSON)),
      Canonical (orig ++ p) →
      mergeMapFields fuel orig t false false p = .ok (orig ++ p) ∨
      mergeMapFields fuel orig t false false p = .error .fuelExhausted := by
  intro fuel
  induction fuel using Nat.strong_induction_on with
  | _ fuel ih =>
    intro p orig hcan
    cases p with
    | nil =>
      left
      simp [mergeMapFields]
    | cons kv rest =>
      obtain ⟨k, v⟩ := kv
      cases fuel with
      | zero => exact Or.inr rfl
      | succ fuel =>
        have hklt : ∀ kv ∈ orig, kv.1 < k := by
          intro kv hkv
          exact (List.pairwise_append.mp hcan).2.2 kv hkv (k, v) (by simp)
        have hins : insertKey orig k v = orig ++ [(k, v)] := insertKey_append v hklt
        have hlookup : lookupKey orig k = none :=
          lookup_eq_none_of_all_ne (fun kv hkv => ne_of_lt (hklt kv hkv))
        have hcan' : Canonical ((orig ++ [(k, v)]) ++ rest) := by
          rw [List.append_assoc]
          simpa using hcan
        have hassoc : (orig ++ [(k, v)]) ++ rest = orig ++ (k, v) :: rest := by
          rw [List.append_assoc]
          rfl
        simp only [mergeMapFields]
        by_cases hpre : k.startsWith deleteFromPrimitiveListDirective
        · rw [if_pos hpre]
          simp only [Bool.not_false, if_true, hins]
          rcases ih fuel (by omega) rest (orig ++ [(k, v)]) hcan' with h | h
          · left
            rw [h, hassoc]
          · right
            exact h
        · rw [if_neg hpre]
          cases fuel with
          | zero => exact Or.inr rfl
          | succ fuel2 =>
            have horig : (if v = JSON.null then removeKey orig k else orig) = orig := by
              by_cases hv : v = JSON.null
              · simp [hv, removeKey_of_none hlookup]
              · simp [hv]
            simp only [mergeMapKey, horig, Bool.and_false, Bool.false_eq_true, if_false,
              hlookup, hins]
            rcases ih fuel2 (by omega) rest (orig ++ [(k, v)]) hcan' with h | h
            · left
              rw [h, hassoc]
            · right
              exact h

theorem mergeMap_empty_orig (fuel : Nat) (p : Smap) (t : SType)
    (hdm : lookupKey p directiveMarker = none) (hcan : Canonical p) :
    mergeMap fuel [] p t false false = .ok p ∨
    mergeMap fuel [] p t false false = .error .fuelExhausted := by
  cases fuel with
  | zero => exact Or.inr rfl
  | succ fuel =>
    simp only [mergeMap, hdm]
    simpa using mergeMapFields_empty_orig t fuel p [] (by simpa using hcan)

/-- C3 (amended): with identical original and modified documents, the
three-way patch (overwrite mode) is exactly the additive diff from
current to modified — `diffMaps(current, modified)` with deletions
ignored — rather than `{}`: fields of `a` absent from `current` are
propagated.  It reduces to `{}` only when that additive diff is empty
(for instance when `current = a`, absent replace-strategy re-emission).
Stated for any self-diff-safe `a` (canonical objects, string `$patch`
values, no arrays) and any produced diff without a top-level `$patch`
key, modulo the embedding's fuel. -/
theorem C3_amended_three_way_is_delta (fuel : Nat) (a c d : Smap)
    (flds : List (String × SType × String × String))
    (hsafe : SelfDiffSafe (.obj a))
    (hd : diffMaps fuel c a (SType.structT flds) false true = .ok d)
    (hcanD : Canonical d)
    (hdm : lookupKey d directiveMarker = none)
    (hfe : CreateThreeWayMergePatch fuel a a c (SType.structT flds) true [] ≠
      .error .fuelExhausted) :
    CreateThreeWayMergePatch fuel a a c (SType.structT flds) true [] = .ok d := by
  unfold CreateThreeWayMergePatch at hfe ⊢
  simp only [getTagStructType, Except.bind, bind, hd] at hfe ⊢
  rcases (diffMaps_self_aux fuel).1 a (SType.structT flds) false hsafe with hok | herr
  case inr =>
    simp only [herr] at hfe ⊢
    exact absurd rfl hfe
  simp only [hok] at hfe ⊢
  rcases mergeMap_empty_orig fuel d (SType.structT flds) hdm hcanD with hok2 | herr2
  case inr =>
    simp only [herr2] at hfe ⊢
    exact absurd rfl hfe
  simp only [hok2]
  simp

set_option maxRecDepth 8000 in
theorem C3_amended_witness :
    CreateThreeWayMergePatch 10 [("x", JSON.num 1)] [("x", JSON.num 1)] []
      (SType.structT []) true [] = .ok [("x", JSON.num 1)] := by
  apply C3_amended_three_way_is_delta 10 [("x", JSON.num 1)] [] [("x", JSON.num 1)] []
  · refine SelfDiffSafe.objSafe _ (by decide) ?_ ?_
    · intro v hv
      simp [directiveMarker] at hv
    · intro kv hkv
      rw [List.mem_singleton] at hkv
      subst hkv
      exact SelfDiffSafe.numSafe 1
  · rfl
  · decide
  · rfl
  · decide

/-! ## C1: round-trip on flat scalar documents -/

/-- Proof-side predicate: a non-null scalar JSON value. -/
def FlatScalarVal (v : JSON) : Prop :=
  (∃ b, v = JSON.bool b) ∨ (∃ n, v = JSON.num n) ∨ (∃ s, v = JSON.str s)

/-- Proof-side predicate: a document whose values are all non-null
scalars. -/
def FlatDoc (m : Smap) : Prop := ∀ kv ∈ m, FlatScalarVal kv.2

/-- Proof-side predicate: no reserved keys (`$patch` or the
`$deleteFromPrimitiveList/...` family). -/
def PlainKeys (m : Smap) : Prop :=
  ∀ kv ∈ m, kv.1 ≠ directiveMarker ∧
    kv.1.startsWith deleteFromPrimitiveListDirective = false

/-- The additions/changes part of a flat two-way diff, as a fold. -/
def flatDiffAdd (a : Smap) (b : List (String × JSON)) (init : Smap) : Smap :=
  b.foldl (fun acc kv =>
    if lookupKey a kv.1 = some kv.2 then acc else insertKey acc kv.1 kv.2) init

/-- The deletions part of a flat two-way diff, as a fold (the literal
shape of `diffMaps`' deletion loop). -/
def flatDiffDel (b : Smap) (a : List (String × JSON)) (init : Smap) : Smap :=
  a.foldl (fun acc kv =>
    if (lookupKey b kv.1).isNone then insertKey acc kv.1 JSON.null else acc) init

/-- The flat two-way diff of `a` and `b`. -/
def flatDiff (a b : Smap) : Smap := flatDiffDel b a (flatDiffAdd a b [])

/-- Applying a flat patch: null values delete, others overwrite. -/
def applyFlat (s : Smap) (p : List (String × JSON)) : Smap :=
  p.foldl (fun s kv =>
    if kv.2 = JSON.null then removeKey s kv.1 else insertKey s kv.1 kv.2) s

theorem foldl_canonical {f : Smap → (String × JSON) → Smap}
    (hf : ∀ acc kv, Canonical acc → Canonical (f acc kv)) :
    ∀ (l : List (String × JSON)) (init : Smap),
      Canonical init → Canonical (l.foldl f init) := by
  intro l
  induction l with
  | nil => intro init h; exact h
  | cons kv rest ih =>
    intro init h
    exact ih (f init kv) (hf init kv h)

theorem flatDiffAdd_canonical (a : Smap) (b : List (String × JSON)) (init : Smap)
    (h : Canonical init) : Canonical (flatDiffAdd a b init) := by
  apply foldl_canonical _ b init h
  intro acc kv hacc
  by_cases hc : lookupKey a kv.1 = some kv.2
  · simpa [hc] using hacc
  · simpa [hc] using canonical_insertKey hacc kv.1 kv.2

theorem flatDiffDel_canonical (b : Smap) (a : List (String × JSON)) (init : Smap)
    (h : Canonical init) : Canonical (flatDiffDel b a init) := by
  apply foldl_canonical _ a init h
  intro acc kv hacc
  by_cases hc : (lookupKey b kv.1).isNone
  · simpa [hc] using canonical_insertKey hacc kv.1 JSON.null
  · simpa [hc] using hacc

theorem flatDiff_canonical (a b : Smap) : Canonical (flatDiff a b) :=
  flatDiffDel_canonical b a _ (flatDiffAdd_canonical a b [] (by simp [Canonical]))

theorem applyFlat_canonical (s : Smap) (p : List (String × JSON))
    (h : Canonical s) : Canonical (applyFlat s p) := by
  apply foldl_canonical _ p s h
  intro acc kv hacc
  by_cases hc : kv.2 = JSON.null
  · simpa [hc] using canonical_removeKey hacc kv.1
  · simpa [hc] using canonical_insertKey hacc kv.1 kv.2

theorem lookup_flatDiffAdd (a : Smap) :
    ∀ (b : List (String × JSON)) (init : Smap) (k : String), Canonical b →
      lookupKey (flatDiffAdd a b init) k =
        match lookupKey b k with
        | some v => if lookupKey a k = some v then lookupKey init k else some v
        | none => lookupKey init k := by
  intro b
  induction b with
  | nil => intro init k _; rfl
  | cons kv rest ih =>
    intro init k hcan
    obtain ⟨k0, v0⟩ := kv
    simp only [flatDiffAdd, List.foldl_cons] at ih ⊢
    rw [ih _ k (Canonical.of_cons hcan)]
    by_cases hk : k0 = k
    · subst hk
      rw [Canonical.tail_lookup_none hcan]
      simp only [lookupKey, if_pos rfl]
      by_cases hc : lookupKey a k0 = some v0
      · simp [hc]
      · simp [hc, lookup_insertKey]
    · simp only [lookupKey, if_neg hk]
      cases hrest : lookupKey rest k with
      | some v =>
        by_cases hc0 : lookupKey a k0 = some v0
        · simp [hc0]
        · simp [hc0, lookup_insertKey, hk]
      | none =>
        by_cases hc0 : lookupKey a k0 = some v0
        · simp [hc0]
        · simp [hc0, lookup_insertKey, hk]

theorem lookup_flatDiffDel (b : Smap) :
    ∀ (a : List (String × JSON)) (init : Smap) (k : String), Canonical a →
      lookupKey (flatDiffDel b a init) k =
        if lookupKey b k = none ∧ (lookupKey a k).isSome then some JSON.null
        else lookupKey init k := by
  intro a
  induction a with
  | nil =>
    intro init k _
    simp [flatDiffDel, lookupKey]
  | cons kv rest ih =>
    intro init k hcan
    obtain ⟨k0, v0⟩ := kv
    simp only [flatDiffDel, List.foldl_cons] at ih ⊢
    rw [ih _ k (Canonical.of_cons hcan)]
    by_cases hk : k0 = k
    · subst hk
      rw [Canonical.tail_lookup_none hcan]
      simp only [lookupKey, if_pos rfl, Option.isSome_none, Bool.false_eq_true, and_false,
        if_false, Option.isSome_some, and_true]
      by_cases hb : lookupKey b k0 = none
      · simp [hb, lookup_insertKey]
      · simp [hb]
    · simp only [lookupKey, if_neg hk]
      by_cases hb0 : lookupKey b k0 = none
      · simp only [hb0, Option.isNone_none, if_true]
        rw [lookup_insertKey]
        rw [if_neg hk]
      · cases hbv : lookupKey b k0 with
        | none => exact absurd hbv hb0
        | some w => simp [hbv]

theorem lookup_applyFlat :
    ∀ (p : List (String × JSON)) (s : Smap) (k : String), Canonical p →
      lookupKey (applyFlat s p) k =
        match lookupKey p k with
        | some v => if v = JSON.null then none else some v
        | none => lookupKey s k := by
  intro p
  induction p with
  | nil => intro s k _; rfl
  | cons kv rest ih =>
    intro s k hcan
    obtain ⟨k0, v0⟩ := kv
    simp only [applyFlat, List.foldl_cons] at ih ⊢
    rw [ih _ k (Canonical.of_cons hcan)]
    by_cases hk : k0 = k
    · subst hk
      rw [Canonical.tail_lookup_none hcan]
      simp only [lookupKey, if_pos rfl]
      by_cases hv : v0 = JSON.null
      · simp [hv, lookup_removeKey]
      · simp [hv, lookup_insertKey]
    · simp only [lookupKey, if_neg hk]
      cases hrest : lookupKey rest k with
      | some v =>
        by_cases hv : v0 = JSON.null
        · simp [hv]
        · simp [hv]
      | none =>
        by_cases hv : v0 = JSON.null
        · simp [hv, lookup_removeKey, hk]
        · simp [hv, lookup_insertKey, hk]

theorem diffMapsFields_flat (a : Smap) (t : SType) (hfa : FlatDoc a) :
    ∀ (fuel : Nat) (sub : List (String × JSON)) (patch : Smap),
      (∀ kv ∈ sub, FlatScalarVal kv.2 ∧ kv.1 ≠ directiveMarker) →
      diffMapsFields fuel a t false false patch sub = .ok (flatDiffAdd a sub patch) ∨
      diffMapsFields fuel a t false false patch sub = .error .fuelExhausted := by
  intro fuel
  induction fuel with
  | zero =>
    intro sub patch hsub
    cases sub with
    | nil => exact Or.inl rfl
    | cons kv rest => exact Or.inr rfl
  | succ fuel ih =>
    intro sub patch hsub
    cases sub with
    | nil => exact Or.inl rfl
    | cons kv rest =>
      obtain ⟨key, v⟩ := kv
      have hv : FlatScalarVal v := (hsub (key, v) (by simp)).1
      have hkey : key ≠ directiveMarker := (hsub (key, v) (by simp)).2
      have hrest : ∀ kv ∈ rest, FlatScalarVal kv.2 ∧ kv.1 ≠ directiveMarker :=
        fun kv hkv => hsub kv (by simp [hkv])
      have hstep : ∀ patch2 : Smap,
          diffMapsFields fuel a t false false patch2 rest =
            .ok (flatDiffAdd a rest patch2) ∨
          diffMapsFields fuel a t false false patch2 rest =
            .error .fuelExhausted :=
        fun patch2 => ih rest patch2 hrest
      cases hl : lookupKey a key with
      | none =>
        have h1 : diffMapsFields (fuel + 1) a t false false patch ((key, v) :: rest) =
            diffMapsFields fuel a t false false (insertKey patch key v) rest := by
          simp [diffMapsFields, hl]
        have h2 : flatDiffAdd a ((key, v) :: rest) patch =
            flatDiffAdd a rest (insertKey patch key v) := by
          simp [flatDiffAdd, hl]
        rw [h1, h2]
        exact hstep _
      | some w =>
        have hw : FlatScalarVal w := hfa _ (mem_of_lookup_eq_some hl)
        rcases hw with ⟨b1, rfl⟩ | ⟨n1, rfl⟩ | ⟨s1, rfl⟩ <;>
          rcases hv with ⟨b2, rfl⟩ | ⟨n2, rfl⟩ | ⟨s2, rfl⟩
        · by_cases he : b1 = b2
          · subst he
            have h1 : diffMapsFields (fuel + 1) a t false false patch
                ((key, JSON.bool b1) :: rest) =
                diffMapsFields fuel a t false false patch rest := by
              simp [diffMapsFields, hl, hkey, sameKind, tyOfGo]
            have h2 : flatDiffAdd a ((key, JSON.bool b1) :: rest) patch =
                flatDiffAdd a rest patch := by
              simp [flatDiffAdd, hl]
            rw [h1, h2]
            exact hstep _
          · have h1 : diffMapsFields (fuel + 1) a t false false patch
                ((key, JSON.bool b2) :: rest) =
                diffMapsFields fuel a t false false (insertKey patch key (JSON.bool b2))
                  rest := by
              simp [diffMapsFields, hl, hkey, sameKind, tyOfGo, he]
            have h2 : flatDiffAdd a ((key, JSON.bool b2) :: rest) patch =
                flatDiffAdd a rest (insertKey patch key (JSON.bool b2)) := by
              simp [flatDiffAdd, hl, he]
            rw [h1, h2]
            exact hstep _
        · have h1 : diffMapsFields (fuel + 1) a t false false patch
              ((key, JSON.num n2) :: rest) =
              diffMapsFields fuel a t false false (insertKey patch key (JSON.num n2))
                rest := by
            simp [diffMapsFields, hl, hkey, sameKind, tyOfGo]
          have h2 : flatDiffAdd a ((key, JSON.num n2) :: rest) patch =
              flatDiffAdd a rest (insertKey patch key (JSON.num n2)) := by
            simp [flatDiffAdd, hl]
          rw [h1, h2]
          exact hstep _
        · have h1 : diffMapsFields (fuel + 1) a t false false patch
              ((key, JSON.str s2) :: rest) =
              diffMapsFields fuel a t false false (insertKey patch key (JSON.str s2))
                rest := by
            simp [diffMapsFields, hl, hkey, sameKind, tyOfGo]
          have h2 : flatDiffAdd a ((key, JSON.str s2) :: rest) patch =
              flatDiffAdd a rest (insertKey patch key (JSON.str s2)) := by
            simp [flatDiffAdd, hl]
          rw [h1, h2]
          exact hstep _
        · have h1 : diffMapsFields (fuel + 1) a t false false patch
              ((key, JSON.bool b2) :: rest) =
              diffMapsFields fuel a t false false (insertKey patch key (JSON.bool b2))
                rest := by
            simp [diffMapsFields, hl, hkey, sameKind, tyOfGo]
          have h2 : flatDiffAdd a ((key, JSON.bool b2) :: rest) patch =
              flatDiffAdd a rest (insertKey patch key (JSON.bool b2)) := by
            simp [flatDiffAdd, hl]
          rw [h1, h2]
          exact hstep _
        · by_cases he : n1 = n2
          · subst he
            have h1 : diffMapsFields (fuel + 1) a t false false patch
                ((key, JSON.num n1) :: rest) =
                diffMapsFields fuel a t false false patch rest := by
              simp [diffMapsFields, hl, hkey, sameKind, tyOfGo]
            have h2 : flatDiffAdd a ((key, JSON.num n1) :: rest) patch =
                flatDiffAdd a rest patch := by
              simp [flatDiffAdd, hl]
            rw [h1, h2]
            exact hstep _
          · have h1 : diffMapsFields (fuel + 1) a t false false patch
                ((key, JSON.num n2) :: rest) =
                diffMapsFields fuel a t false false (insertKey patch key (JSON.num n2))
                  rest := by
              simp [diffMapsFields, hl, hkey, sameKind, tyOfGo, he]
            have h2 : flatDiffAdd a ((key, JSON.num n2) :: rest) patch =
                flatDiffAdd a rest (insertKey patch key (JSON.num n2)) := by
              simp [flatDiffAdd, hl, he]
            rw [h1, h2]
            exact hstep _
        · have h1 : diffMapsFields (fuel + 1) a t false false patch
              ((key, JSON.str s2) :: rest) =
              diffMapsFields fuel a t false false (insertKey patch key (JSON.str s2))
                rest := by
            simp [diffMapsFields, hl, hkey, sameKind, tyOfGo]
          have h2 : flatDiffAdd a ((key, JSON.str s2) :: rest) patch =
              flatDiffAdd a rest (insertKey patch key (JSON.str s2)) := by
            simp [flatDiffAdd, hl]
          rw [h1, h2]
          exact hstep _
        · have h1 : diffMapsFields (fuel + 1) a t false false patch
              ((key, JSON.bool b2) :: rest) =
              diffMapsFields fuel a t false false (insertKey patch key (JSON.bool b2))
                rest := by
            simp [diffMapsFields, hl, hkey, sameKind, tyOfGo]
          have h2 : flatDiffAdd a ((key, JSON.bool b2) :: rest) patch =
              flatDiffAdd a rest (insertKey patch key (JSON.bool b2)) := by
            simp [flatDiffAdd, hl]
          rw [h1, h2]
          exact hstep _
        · have h1 : diffMapsFields (fuel + 1) a t false false patch
              ((key, JSON.num n2) :: rest) =
              diffMapsFields fuel a t false false (insertKey patch key (JSON.num n2))
                rest := by
            simp [diffMapsFields, hl, hkey, sameKind, tyOfGo]
          have h2 : flatDiffAdd a ((key, JSON.num n2) :: rest) patch =
              flatDiffAdd a rest (insertKey patch key (JSON.num n2)) := by
            simp [flatDiffAdd, hl]
          rw [h1, h2]
          exact hstep _
        · by_cases he : s1 = s2
          · subst he
            have h1 : diffMapsFields (fuel + 1) a t false false patch
                ((key, JSON.str s1) :: rest) =
                diffMapsFields fuel a t false false patch rest := by
              simp [diffMapsFields, hl, hkey, sameKind, tyOfGo]
            have h2 : flatDiffAdd a ((key, JSON.str s1) :: rest) patch =
                flatDiffAdd a rest patch := by
              simp [flatDiffAdd, hl]
            rw [h1, h2]
            exact hstep _
          · have h1 : diffMapsFields (fuel + 1) a t false false patch
                ((key, JSON.str s2) :: rest) =
                diffMapsFields fuel a t false false (insertKey patch key (JSON.str s2))
                  rest := by
              simp [diffMapsFields, hl, hkey, sameKind, tyOfGo, he]
            have h2 : flatDiffAdd a ((key, JSON.str s2) :: rest) patch =
                flatDiffAdd a rest (insertKey patch key (JSON.str s2)) := by
              simp [flatDiffAdd, hl, he]
            rw [h1, h2]
            exact hstep _

theorem diffMaps_flat (fuel : Nat) (a b : Smap) (t : SType) (hfa : FlatDoc a)
    (hsub : ∀ kv ∈ b, FlatScalarVal kv.2 ∧ kv.1 ≠ directiveMarker) :
    diffMaps fuel a b t false false = .ok (flatDiff a b) ∨
    diffMaps fuel a b t false false = .error .fuelExhausted := by
  cases fuel with
  | zero => exact Or.inr rfl
  | succ fuel =>
    rcases diffMapsFields_flat a t hfa fuel b [] hsub with hok | herr
    · left
      simp only [diffMaps, hok, Except.bind, bind, Bool.not_false, if_true]
      rfl
    · right
      simp only [diffMaps, herr, Except.bind, bind]

theorem FlatDoc_removeKey {s : Smap} (h : FlatDoc s) (k : String) :
    FlatDoc (removeKey s k) := by
  intro kv hkv
  exact h kv (List.mem_of_mem_filter hkv)

theorem FlatDoc_insertKey {s : Smap} (h : FlatDoc s) {k : String} {v : JSON}
    (hv : FlatScalarVal v) : FlatDoc (insertKey s k v) := by
  intro kv hkv
  rcases mem_insertKey hkv with h1 | h1
  · subst h1
    exact hv
  · exact h kv h1

theorem mergeMapFields_flat (t : SType) :
    ∀ (fuel : Nat) (p : List (String × JSON)) (s : Smap),
      Canonical p →
      (∀ kv ∈ p, kv.1.startsWith deleteFromPrimitiveListDirective = false) →
      (∀ kv ∈ p, kv.2 = JSON.null ∨ FlatScalarVal kv.2) →
      FlatDoc s →
      (∀ kv ∈ p, kv.2 ≠ JSON.null → (lookupKey s kv.1).isSome →
        ∃ r, LookupPatchMetadata t kv.1 = .ok r) →
      mergeMapFields fuel s t true true p = .ok (applyFlat s p) ∨
      mergeMapFields fuel s t true true p = .error .fuelExhausted := by
  intro fuel
  induction fuel using Nat.strong_induction_on with
  | _ fuel ih =>
    intro p s hcanp hpre hflatp hfs hlkp
    cases p with
    | nil =>
      left
      simp [mergeMapFields, applyFlat]
    | cons kv rest =>
      obtain ⟨k, v⟩ := kv
      cases fuel with
      | zero => exact Or.inr rfl
      | succ fuel =>
        have hk_notpre : k.startsWith deleteFromPrimitiveListDirective = false :=
          hpre (k, v) (by simp)
        cases fuel with
        | zero =>
          right
          simp [mergeMapFields, hk_notpre, mergeMapKey]
        | succ fuel2 =>
          have hknr : ∀ kv ∈ rest, k ≠ kv.1 := by
            intro kv hkv
            exact ne_of_lt ((List.pairwise_cons.mp hcanp).1 kv hkv)
          have hcanr : Canonical rest := Canonical.of_cons hcanp
          have hprer : ∀ kv ∈ rest,
              kv.1.startsWith deleteFromPrimitiveListDirective = false :=
            fun kv hkv => hpre kv (by simp [hkv])
          have hflatr : ∀ kv ∈ rest, kv.2 = JSON.null ∨ FlatScalarVal kv.2 :=
            fun kv hkv => hflatp kv (by simp [hkv])
          have hrec : ∀ s' : Smap, FlatDoc s' →
              (∀ k', k' ≠ k → lookupKey s' k' = lookupKey s k') →
              mergeMapFields fuel2 s' t true true rest = .ok (applyFlat s' rest) ∨
              mergeMapFields fuel2 s' t true true rest = .error .fuelExhausted := by
            intro s' hfs' hsame
            apply ih fuel2 (by omega) rest s' hcanr hprer hflatr hfs'
            intro kv hkv hne hsome
            rw [hsame kv.1 (fun he => hknr kv hkv he.symm)] at hsome
            exact hlkp kv (by simp [hkv]) hne hsome
          rcases hflatp (k, v) (by simp) with hv | hv
          · -- null value: delete the key and continue
            simp only at hv
            subst hv
            have hstep : mergeMapFields (fuel2 + 1 + 1) s t true true
                ((k, JSON.null) :: rest) =
                mergeMapFields fuel2 (removeKey s k) t true true rest := by
              simp [mergeMapFields, hk_notpre, mergeMapKey]
            have happ : applyFlat s ((k, JSON.null) :: rest) =
                applyFlat (removeKey s k) rest := by
              simp [applyFlat]
            rw [hstep, happ]
            exact hrec (removeKey s k) (FlatDoc_removeKey hfs k)
              (fun k' hk' => by rw [lookup_removeKey, if_neg (fun he => hk' he.symm)])
          · -- non-null scalar value: overwrite the key and continue
            simp only at hv
            have hvne : v ≠ JSON.null := by
              rcases hv with ⟨b, rfl⟩ | ⟨n, rfl⟩ | ⟨s2, rfl⟩ <;> simp
            have happ : applyFlat s ((k, v) :: rest) =
                applyFlat (insertKey s k v) rest := by
              simp [applyFlat, hvne]
            have hrec2 := hrec (insertKey s k v) (FlatDoc_insertKey hfs hv)
              (fun k' hk' => by rw [lookup_insertKey, if_neg (fun he => hk' he.symm)])
            rw [happ]
            cases hl : lookupKey s k with
            | none =>
              have hstep : mergeMapFields (fuel2 + 1 + 1) s t true true ((k, v) :: rest) =
                  mergeMapFields fuel2 (insertKey s k v) t true true rest := by
                simp [mergeMapFields, hk_notpre, mergeMapKey, hvne, hl]
              rw [hstep]
              exact hrec2
            | some w =>
              have hw : FlatScalarVal w := hfs _ (mem_of_lookup_eq_some hl)
              by_cases hsk : sameKind w v = true
              · obtain ⟨r, hr⟩ := hlkp (k, v) (by simp) hvne (by simp [hl])
                obtain ⟨ft, st, mk⟩ := r
                rcases hw with ⟨b1, rfl⟩ | ⟨n1, rfl⟩ | ⟨s1, rfl⟩ <;>
                  rcases hv with ⟨b2, hv2⟩ | ⟨n2, hv2⟩ | ⟨s2, hv2⟩ <;>
                  (have hstep : mergeMapFields (fuel2 + 1 + 1) s t true true
                      ((k, v) :: rest) =
                      mergeMapFields fuel2 (insertKey s k v) t true true rest := by
                    simp [mergeMapFields, hk_notpre, mergeMapKey, hl, hr, hv2,
                      sameKind, tyOfGo, bind, Except.bind]
                   rw [hstep]
                   exact hrec2)
              · have hstep : mergeMapFields (fuel2 + 1 + 1) s t true true
                    ((k, v) :: rest) =
                    mergeMapFields fuel2 (insertKey s k v) t true true rest := by
                  simp [mergeMapFields, hk_notpre, mergeMapKey, hvne, hl, hsk]
                rw [hstep]
                exact hrec2

theorem lookup_flatDiff (a b : Smap) (ha : Canonical a) (hb : Canonical b)
    (k : String) :
    lookupKey (flatDiff a b) k =
      if lookupKey b k = none ∧ (lookupKey a k).isSome then some JSON.null
      else
        match lookupKey b k with
        | some v => if lookupKey a k = some v then none else some v
        | none => none := by
  unfold flatDiff
  rw [lookup_flatDiffDel b a _ k ha, lookup_flatDiffAdd a b [] k hb]
  cases lookupKey b k <;> simp [lookupKey]

theorem applyFlat_flatDiff (a b : Smap) (ha : Canonical a) (hb : Canonical b)
    (hfb : FlatDoc b) : applyFlat a (flatDiff a b) = b := by
  apply canonical_ext (applyFlat_canonical _ _ ha) hb
  intro k
  rw [lookup_applyFlat (flatDiff a b) a k (flatDiff_canonical a b),
    lookup_flatDiff a b ha hb k]
  cases hbk : lookupKey b k with
  | some v =>
    have hvne : v ≠ JSON.null := by
      rcases hfb (k, v) (mem_of_lookup_eq_some hbk) with ⟨x, hx⟩ | ⟨x, hx⟩ | ⟨x, hx⟩ <;>
        simp only at hx <;> simp [hx]
    by_cases hak : lookupKey a k = some v
    · simp [hbk, hak]
    · simp [hbk, hak, hvne]
  | none =>
    cases hak : lookupKey a k with
    | some w => simp [hbk, hak]
    | none => simp [hbk, hak]

/-- Every binding of a flat diff comes from a deletion of a key of `a`
(null value) or an addition/change taken verbatim from `b`. -/
theorem mem_flatDiff {a b : Smap} (ha : Canonical a) (hb : Canonical b)
    {kv : String × JSON} (h : kv ∈ flatDiff a b) :
    (kv.2 = JSON.null ∧ (lookupKey a kv.1).isSome) ∨ kv ∈ b := by
  obtain ⟨k, v⟩ := kv
  have hlk := lookup_of_mem_canonical (flatDiff_canonical a b) h
  rw [lookup_flatDiff a b ha hb k] at hlk
  by_cases hdel : lookupKey b k = none ∧ (lookupKey a k).isSome
  · rw [if_pos hdel] at hlk
    left
    exact ⟨by simpa using hlk.symm, hdel.2⟩
  · rw [if_neg hdel] at hlk
    cases hbk : lookupKey b k with
    | some w =>
      simp only [hbk] at hlk
      by_cases hak : lookupKey a k = some w
      · simp [hak] at hlk
      · rw [if_neg hak] at hlk
        right
        obtain rfl : w = v := by simpa using hlk
        exact mem_of_lookup_eq_some hbk
    | none => simp [hbk] at hlk

theorem mergeMap_flat (fuel : Nat) (s p : Smap) (t : SType)
    (hnodir : lookupKey p directiveMarker = none)
    (hcanp : Canonical p)
    (hpre : ∀ kv ∈ p, kv.1.startsWith deleteFromPrimitiveListDirective = false)
    (hflatp : ∀ kv ∈ p, kv.2 = JSON.null ∨ FlatScalarVal kv.2)
    (hfs : FlatDoc s)
    (hlkp : ∀ kv ∈ p, kv.2 ≠ JSON.null → (lookupKey s kv.1).isSome →
      ∃ r, LookupPatchMetadata t kv.1 = .ok r) :
    mergeMap fuel s p t true true = .ok (applyFlat s p) ∨
    mergeMap fuel s p t true true = .error .fuelExhausted := by
  cases fuel with
  | zero => exact Or.inr rfl
  | succ fuel =>
    have hmm : mergeMap (fuel + 1) s p t true true =
        mergeMapFields fuel s t true true p := by
      simp [mergeMap, hnodir]
    rw [hmm]
    exact mergeMapFields_flat t fuel p s hcanp hpre hflatp hfs hlkp

/-- C1 (amended): the round-trip
`StrategicMergePatch(a, CreateTwoWayMergePatch(a, b, S), S) = b` does not
hold for all well-formed documents (explicit nulls in `b` are dropped by
the apply path, see the counterexample); it does hold on flat documents:
if `a` and `b` are canonical objects of non-null scalar values with no
reserved keys, and the schema resolves every key present in both, then
applying the two-way patch to `a` yields exactly `b` (modulo the
embedding's fuel bound). -/
theorem C1_amended_flat_round_trip (fuel : Nat) (a b : Smap)
    (flds : List (String × SType × String × String))
    (ha : Canonical a) (hb : Canonical b)
    (hfa : FlatDoc a) (hfb : FlatDoc b)
    (hpa : PlainKeys a) (hpb : PlainKeys b)
    (hlk : ∀ k, (lookupKey a k).isSome → (lookupKey b k).isSome →
      ∃ r, LookupPatchMetadata (SType.structT flds) k = .ok r)
    (hfe : (CreateTwoWayMergeMapPatch fuel a b (SType.structT flds) []).bind
        (fun p => StrategicMergeMapPatch fuel a p (SType.structT flds)) ≠
      .error .fuelExhausted) :
    (CreateTwoWayMergeMapPatch fuel a b (SType.structT flds) []).bind
        (fun p => StrategicMergeMapPatch fuel a p (SType.structT flds)) =
      .ok b := by
  have hsub : ∀ kv ∈ b, FlatScalarVal kv.2 ∧ kv.1 ≠ directiveMarker :=
    fun kv hkv => ⟨hfb kv hkv, (hpb kv hkv).1⟩
  rcases diffMaps_flat fuel a b (SType.structT flds) hfa hsub with hdiff | hdiff
  · have hct : CreateTwoWayMergeMapPatch fuel a b (SType.structT flds) [] =
        .ok (flatDiff a b) := by
      simp [CreateTwoWayMergeMapPatch, getTagStructType, hdiff, bind, Except.bind]
    have hna : lookupKey a directiveMarker = none := by
      cases hq : lookupKey a directiveMarker with
      | none => rfl
      | some w => exact absurd rfl (hpa _ (mem_of_lookup_eq_some hq)).1
    have hnb : lookupKey b directiveMarker = none := by
      cases hq : lookupKey b directiveMarker with
      | none => rfl
      | some w => exact absurd rfl (hpb _ (mem_of_lookup_eq_some hq)).1
    have hnodir : lookupKey (flatDiff a b) directiveMarker = none := by
      rw [lookup_flatDiff a b ha hb directiveMarker]
      simp [hna, hnb]
    have hmem := fun {kv} (h : kv ∈ flatDiff a b) => mem_flatDiff ha hb h
    have hpre2 : ∀ kv ∈ flatDiff a b,
        kv.1.startsWith deleteFromPrimitiveListDirective = false := by
      intro kv hkv
      rcases hmem hkv with ⟨_, hsome⟩ | hkv2
      · obtain ⟨w, hw⟩ := Option.isSome_iff_exists.mp hsome
        exact (hpa _ (mem_of_lookup_eq_some hw)).2
      · exact (hpb kv hkv2).2
    have hflat2 : ∀ kv ∈ flatDiff a b,
        kv.2 = JSON.null ∨ FlatScalarVal kv.2 := by
      intro kv hkv
      rcases hmem hkv with ⟨hnull, _⟩ | hkv2
      · exact Or.inl hnull
      · exact Or.inr (hfb kv hkv2)
    have hlkp2 : ∀ kv ∈ flatDiff a b, kv.2 ≠ JSON.null →
        (lookupKey a kv.1).isSome →
        ∃ r, LookupPatchMetadata (SType.structT flds) kv.1 = .ok r := by
      intro kv hkv hne hsome
      rcases hmem hkv with ⟨hnull, _⟩ | hkv2
      · exact absurd hnull hne
      · exact hlk kv.1 hsome
          (by rw [lookup_of_mem_canonical hb hkv2]; rfl)
    rcases mergeMap_flat fuel a (flatDiff a b) (SType.structT flds) hnodir
        (flatDiff_canonical a b) hpre2 hflat2 hfa hlkp2 with hmm | hmm
    · simp [hct, bind, Except.bind, StrategicMergeMapPatch, getTagStructType,
        hmm, applyFlat_flatDiff a b ha hb hfb]
    · exfalso
      apply hfe
      simp [hct, bind, Except.bind, StrategicMergeMapPatch, getTagStructType, hmm]
  · exfalso
    apply hfe
    simp [CreateTwoWayMergeMapPatch, getTagStructType, hdiff, bind, Except.bind]

set_option maxRecDepth 8000 in
/-- Witness for the amended C1: with `a = {"x":"1"}` and `b = {"x":"2"}`
under a schema declaring `x`, the two-way patch applied back to `a`
reproduces `b` exactly. -/
theorem C1_amended_flat_round_trip_witness :
    (CreateTwoWayMergeMapPatch 10 [("x", JSON.str "1")]
        [("x", JSON.str "2")]
        (SType.structT [("x", SType.scalar, "", "")]) []).bind
      (fun p => StrategicMergeMapPatch 10 [("x", JSON.str "1")] p
        (SType.structT [("x", SType.scalar, "", "")])) =
      .ok [("x", JSON.str "2")] := by
  apply C1_amended_flat_round_trip 10 [("x", JSON.str "1")]
    [("x", JSON.str "2")] [("x", SType.scalar, "", "")]
  · decide
  · decide
  · intro kv hkv
    rw [List.mem_singleton] at hkv
    subst hkv
    exact Or.inr (Or.inr ⟨"1", rfl⟩)
  · intro kv hkv
    rw [List.mem_singleton] at hkv
    subst hkv
    exact Or.inr (Or.inr ⟨"2", rfl⟩)
  · intro kv hkv
    rw [List.mem_singleton] at hkv
    subst hkv
    exact ⟨by decide, by decide⟩
  · intro kv hkv
    rw [List.mem_singleton] at hkv
    subst hkv
    exact ⟨by decide, by decide⟩
  · intro k hka hkb
    by_cases hx : "x" = k
    · subst hx
      exact ⟨(SType.scalar, "", ""), rfl⟩
    · exfalso
      simp [lookupKey, hx] at hka
  · decide
